import Mathlib

/-!
Shallow embedding of `wikidataintegrator/wdi_fastrun.py` (class
`FastRunContainer`) and verification of the specification's claims about it.

Python dicts are modelled as insertion-ordered association lists over
`String` keys, Python sets as duplicate-free lists grown by
append-if-absent, raised exceptions as `Except.error`, and the SPARQL
engine / property-datatype lookup collaborators as oracle functions stored
in the container.  The statement value objects (subclasses of
`wdi_core.WDBaseDataType`, a collaborator that is not part of the analysed
source) are modelled from the spec's capability contract where noted.
-/

namespace FastRun

/-- Association-list lookup, modelling Python `d[k]` / `d.get(k)`. -/
def alGet {α : Type} (l : List (String × α)) (k : String) : Option α :=
  (l.find? (fun p => p.1 == k)).map (·.2)

/-- Key-membership test, modelling Python `k in d`. -/
def alMem {α : Type} (l : List (String × α)) (k : String) : Bool :=
  (alGet l k).isSome

/-- Dict-style store: update in place when the key exists, else append
(Python dicts keep insertion order). -/
def alSet {α : Type} : List (String × α) → String → α → List (String × α)
  | [], k, v => [(k, v)]
  | (k', v') :: rest, k, v =>
    if k' == k then (k', v) :: rest else (k', v') :: alSet rest k v

/-- Modify the value at a key, starting from a default when absent
(Python `defaultdict` access followed by mutation). -/
def alUpd {α : Type} (l : List (String × α)) (k : String) (d : α) (f : α → α) :
    List (String × α) :=
  alSet l k (f ((alGet l k).getD d))

/-- Python `set.add`: append the element when it is not yet present. -/
def addIfAbsent {α : Type} [BEq α] (x : α) (l : List α) : List α :=
  if l.contains x then l else l ++ [x]

/-- Does the character list start with the given pattern? -/
def chStarts : List Char → List Char → Bool
  | [], _ => true
  | _ :: _, [] => false
  | a :: as, b :: bs => a == b && chStarts as bs

/-- Substring occurrence on character lists. -/
def chContains (pat : List Char) : List Char → Bool
  | [] => pat.isEmpty
  | b :: bs => chStarts pat (b :: bs) || chContains pat bs

/-- Python `sub in s` substring test. -/
def strContains (s sub : String) : Bool :=
  chContains sub.data s.data

/-- Python `s.startswith("+")`. -/
def startsPlus (s : String) : Bool :=
  chStarts "+".data s.data

/-- Split a character list at every slash (Python `s.split('/')` for the
single-character separator used here); the result is always non-empty. -/
def splitSlash : List Char → List (List Char)
  | [] => [[]]
  | ch :: rest =>
    let r := splitSlash rest
    if ch == '/' then [] :: r
    else
      match r with
      | [] => [[ch]]
      | g :: gs => (ch :: g) :: gs

/-- Python `s.split('/')[-1]`: the last slash-separated component. -/
def fmtLast (s : String) : String :=
  String.mk (((splitSlash s.data).getLast?).getD s.data)

/-- A value as stored in the statement cache: either a formatted string, or
a raw binding left in dict form (blank-node results are never unwrapped by
`_query_data`, mirroring the TODO at line 326 of the source). -/
inductive CVal where
  | lit (s : String)
  | bn (s : String)
deriving DecidableEq

/-- Payload string of a cached value (used by the reconstructor, which
passes `d['v']` straight to a statement constructor). -/
def CVal.str : CVal → String
  | .lit s => s
  | .bn s => s

/-- One cached statement record: principal value `v`, qualifier set `qual`
and reference-group map `ref`, as built by `_query_data`. -/
structure SRec where
  v : CVal
  qual : List (String × String)
  ref : List (String × List (String × CVal))
deriving DecidableEq

/-- Entity statement cache: qid → property → statement-id → record. -/
abbrev PropData := List (String × List (String × List (String × SRec)))

/-- A single SPARQL result term `{type, value, datatype?}`. -/
structure RDFTerm where
  typ : String
  value : String
  datatype : Option String := none
deriving DecidableEq

/-- One raw binding row returned by the engine for `_query_data`. -/
structure Binding where
  item : Option RDFTerm := none
  sid : Option RDFTerm := none
  v : Option RDFTerm := none
  qval : Option RDFTerm := none
  pq : Option RDFTerm := none
  pr : Option RDFTerm := none
  ref : Option RDFTerm := none
  rval : Option RDFTerm := none
deriving DecidableEq

/-- One raw binding row returned by the engine for `_query_lang`. -/
structure LangBind where
  item : RDFTerm
  label : Option RDFTerm := none
deriving DecidableEq

/-- The external collaborators: property-datatype lookup
(`get_prop_datatype`; `none` models the raised lookup error) and the query
transport, keyed only by the data the queries depend on (the base filter is
fixed at construction and only alters the query text the oracle consumes).
-/
structure Engine where
  dt : String → Option String
  bindings : Bool → String → List Binding
  langBindings : String → String → List LangBind

/-- Modelled from the spec: the principal value carried by a statement
object of the (absent) `wdi_core` base data type hierarchy.  A time
statement's value is the tuple whose first element is the timestamp
string; a wikibase-item statement's value is the numeric id (kept here as
its canonical digit string); every other datatype carries a plain string.
-/
inductive WDVal where
  | s (v : String)
  | itemStr (n : String)
  | timeTup (t : String) (rest : List String)
deriving DecidableEq

/-- Modelled from the spec: Python truthiness of a statement value
(`None`, `''`, `0` and the empty tuple are falsy; the tuple modelled here
is never empty). -/
def WDVal.truthy : WDVal → Bool
  | .s v => !(v == "")
  | .itemStr n => !(n == "0")
  | .timeTup _ _ => true

/-- Truthiness of the optional `value` attribute. -/
def valTruthy : Option WDVal → Bool
  | none => false
  | some v => v.truthy

/-- Truthiness of the optional `data_type` attribute. -/
def dtTruthy : Option String → Bool
  | none => false
  | some s => !(s == "")

/-- Modelled from the spec: the statement capability consumed by the
decision procedure — property id, principal value, datatype tag,
qualifier (property, value) pairs and reference groups of such pairs. -/
structure WDStatement where
  prop_nr : String
  value : Option WDVal
  data_type : Option String
  qualifiers : List (String × String)
  references : List (List (String × String))
deriving DecidableEq

/-- Reference groups of a statement. -/
abbrev RefList := List (List (String × String))

/-- An optional caller-supplied reference comparison predicate. -/
abbrev RefCmp := RefList → RefList → Bool

/-- Boolean subset test on lists viewed as sets. -/
def subsetB {α : Type} [BEq α] (l1 l2 : List α) : Bool :=
  l1.all (fun x => l2.contains x)

/-- Modelled from the spec: qualifier sets compare as unordered sets. -/
def qualSetEq (l1 l2 : List (String × String)) : Bool :=
  subsetB l1 l2 && subsetB l2 l1

/-- Modelled from the spec: one reference group compares as an unordered
set of (property, value) pairs. -/
def refGroupEq (g1 g2 : List (String × String)) : Bool :=
  subsetB g1 g2 && subsetB g2 g1

/-- Modelled from the spec: the default reference comparison — the two
collections of reference groups must cover each other up to group
equality. -/
def refSetEq (r1 r2 : RefList) : Bool :=
  r1.all (fun g => r2.any (fun h => refGroupEq g h)) &&
  r2.all (fun g => r1.any (fun h => refGroupEq g h))

/-- The reference comparison actually applied by `equals`: references are
compared only when `include_ref` is set, by the caller-supplied `fref`
when one is given and by the default set comparison otherwise. -/
def effRefCmp (ur : Bool) (fr : Option RefCmp) (r1 r2 : RefList) : Bool :=
  if ur then
    match fr with
    | some f => f r1 r2
    | none => refSetEq r1 r2
  else true

/-- Modelled from the spec: structural equality of two statements —
property id, principal value and qualifier set always, references per the
`include_ref` / `fref` policy. -/
def equalsW (ur : Bool) (fr : Option RefCmp) (x y : WDStatement) : Bool :=
  x.prop_nr == y.prop_nr && x.value == y.value &&
  qualSetEq x.qualifiers y.qualifiers &&
  effRefCmp ur fr x.references y.references

/-- The fast-run container state: the four caches (`prop_data`,
`loaded_langs`, `prop_dt_map`, `rev_lookup`), the resolved entity id, the
reconstruction scratch attribute, the collaborators and the reference
policy fixed at construction.  The unused `statements` attribute, the
`debug` flag and the base filter (which only contributes query text the
engine oracle already accounts for) are omitted. -/
structure FRC where
  prop_data : PropData
  loaded_langs : List (String × List (String × List LangBind))
  prop_dt_map : List (String × String)
  current_qid : String
  rev_lookup : List (String × List String)
  engine : Engine
  use_refs : Bool
  ref_comparison_f : Option RefCmp
  reconstructed_statements : List WDStatement

/-- `get_prop_datatype` (staticmethod): ask the engine for a property's
datatype tag. -/
def get_prop_datatype (e : Engine) (prop_nr : String) : Option String :=
  e.dt prop_nr

/-- `get_all_data`. -/
def get_all_data (c : FRC) : PropData :=
  c.prop_data

/-- `clear` (lines 404-410): reset `prop_dt_map`, `prop_data` and
`rev_lookup`; nothing else is touched. -/
def FRC.clear (c : FRC) : FRC :=
  { c with prop_dt_map := [], prop_data := [], rev_lookup := [] }

/-- Python `KeyError`: lookups of mandatory binding fields raise when the
field is absent. -/
def exc {α : Type} (o : Option α) (msg : String) : Except String α :=
  match o with
  | some a => Except.ok a
  | none => Except.error msg

/-- The wikidata entity URI fragment tested by `_query_data`. -/
def entityURI : String := "www.wikidata.org/entity/"

/-- The `xsd:dateTime` datatype URI tested by `_query_data`. -/
def xsdDateTime : String := "http://www.w3.org/2001/XMLSchema#dateTime"

/-- One formatted binding row, after the first loop of `_query_data`
(lines 312-342): uri fields reduced to their last component, the principal
value and the reference value unwrapped unless they were blank nodes. -/
structure PBinding where
  item : Option String := none
  sid : Option String := none
  qval : Option String := none
  pq : Option String := none
  pr : Option String := none
  ref : Option String := none
  v : Option CVal := none
  rval : Option CVal := none
deriving DecidableEq

/-- Formatting of the principal value `v` (lines 317-328): a literal keeps
its string, an entity uri is reduced to its id, any other uri keeps its
full text, and everything else (blank nodes) stays in dict form. -/
def fmtV (t : RDFTerm) : CVal :=
  if t.typ == "literal" then CVal.lit t.value
  else if t.typ == "uri" then
    if strContains t.value entityURI then CVal.lit (fmtLast t.value)
    else CVal.lit t.value
  else CVal.bn t.value

/-- The sign normalization applied to `rval` (lines 333-335): a value whose
declared datatype is `xsd:dateTime` and which does not start with `+` gets
an explicit `+` prefix. -/
def plusNorm (t : RDFTerm) : RDFTerm :=
  if t.datatype == some xsdDateTime && !(startsPlus t.value) then
    { t with value := "+" ++ t.value }
  else t

/-- Formatting of the reference value `rval` (lines 332-342): the dateTime
sign normalization, then the same literal/uri/dict dispatch as `fmtV`. -/
def fmtRval (t : RDFTerm) : CVal :=
  let t := plusNorm t
  if t.typ == "literal" then CVal.lit t.value
  else if t.typ == "uri" then
    if strContains t.value entityURI then CVal.lit (fmtLast t.value)
    else CVal.lit t.value
  else CVal.bn t.value

/-- Format one raw binding (the body of the first loop of `_query_data`). -/
def fmtBinding (i : Binding) : PBinding :=
  { item := i.item.map (fun t => fmtLast t.value)
    sid := i.sid.map (fun t => fmtLast t.value)
    qval := i.qval.map (fun t => fmtLast t.value)
    pq := i.pq.map (fun t => fmtLast t.value)
    pr := i.pr.map (fun t => fmtLast t.value)
    ref := i.ref.map (fun t => fmtLast t.value)
    v := i.v.map fmtV
    rval := i.rval.map fmtRval }

/-- Reverse Value Index insertion (line 329): `rev_lookup[v].add(item)` on
a `defaultdict(set)`. -/
def revAdd (rl : List (String × List String)) (v qid : String) :
    List (String × List String) :=
  alUpd rl v [] (fun s => addIfAbsent qid s)

/-- The first loop of `_query_data`: format every binding and index every
non-dict principal value under its entity (raises when `item` is missing
while `v` is present, as line 329 would). -/
def phaseA (rl : List (String × List String)) :
    List Binding → Except String (List PBinding × List (String × List String))
  | [] => Except.ok ([], rl)
  | i :: rest =>
    let p := fmtBinding i
    let step : Except String (List (String × List String)) :=
      match p.v with
      | some (CVal.lit s) =>
        match p.item with
        | some q => Except.ok (revAdd rl s q)
        | none => Except.error "KeyError: item"
      | _ => Except.ok rl
    match step with
    | Except.error e => Except.error e
    | Except.ok rl' =>
      match phaseA rl' rest with
      | Except.error e => Except.error e
      | Except.ok (ps, rl'') => Except.ok (p :: ps, rl'')

/-- Nested read `prop_data[qid][prop][sid]`. -/
def getSid (pd : PropData) (qid prop sid : String) : Option SRec := do
  let e ← alGet pd qid
  let sids ← alGet e prop
  alGet sids sid

/-- Nested write `prop_data[qid][prop][sid] = r`, creating the missing
levels exactly as lines 347-352 do. -/
def setSid (pd : PropData) (qid prop sid : String) (r : SRec) : PropData :=
  alUpd pd qid [] (fun e => alUpd e prop [] (fun sids => alSet sids sid r))

/-- The second loop of `_query_data` (lines 345-367): build the statement
cache record for each formatted binding — principal value overwritten,
qualifier pair added when both `pq` and `qval` are present, reference pair
added under its group when `ref` is present (raising when `pr` or `rval`
is then missing, as lines 367 would). -/
def phaseB (pd : PropData) (prop_nr : String) :
    List PBinding → Except String PropData
  | [] => Except.ok pd
  | i :: rest =>
    match i.item, i.sid, i.v with
    | some qid, some sid, some v =>
      let r0 : SRec :=
        match getSid pd qid prop_nr sid with
        | some r => { r with v := v }
        | none => { v := v, qual := [], ref := [] }
      let r1 : SRec :=
        match i.pq, i.qval with
        | some pqv, some qv => { r0 with qual := addIfAbsent (pqv, qv) r0.qual }
        | _, _ => r0
      let r2e : Except String SRec :=
        match i.ref with
        | none => Except.ok r1
        | some refid =>
          match i.pr, i.rval with
          | some pr, some rv =>
            Except.ok { r1 with ref := alUpd r1.ref refid [] (fun g => addIfAbsent (pr, rv) g) }
          | _, _ => Except.error "KeyError: pr or rval"
      match r2e with
      | Except.error e => Except.error e
      | Except.ok r2 => phaseB (setSid pd qid prop_nr sid r2) prop_nr rest
    | _, _, _ => Except.error "KeyError: item, sid or v"

/-- `_query_data` (lines 272-367): fetch the bindings for one property
(already shaped per `use_refs` by the engine oracle), format them,
index the principal values, and fold them into the statement cache. -/
def _query_data (c : FRC) (prop_nr : String) : Except String FRC :=
  match phaseA c.rev_lookup (c.engine.bindings c.use_refs prop_nr) with
  | Except.error e => Except.error e
  | Except.ok (ps, rl) =>
    match phaseB c.prop_data prop_nr ps with
    | Except.error e => Except.error e
    | Except.ok pd => Except.ok { c with rev_lookup := rl, prop_data := pd }

/-- Modelled from the spec: building a typed value object from a cached
raw string — the statement constructor selected by datatype builds a time
tuple for `time`, parses the numeric id for `wikibase-item` (kept as the
digit string after the `Q`), and keeps the plain string otherwise. -/
def valueFromCache (dt : String) (v : String) : WDVal :=
  if dt == "time" then WDVal.timeTup v []
  else if dt == "wikibase-item" then WDVal.itemStr (v.drop 1)
  else WDVal.s v

/-- The statement object reconstructed for one cached record (lines
69-88): principal value built from the cached string via the
datatype-selected constructor, qualifiers and reference groups attached
as (property, value) pairs. -/
def stmtOf (dt prop_nr : String) (d : SRec) : WDStatement :=
  { prop_nr := prop_nr
    data_type := some dt
    value := some (valueFromCache dt d.v.str)
    qualifiers := d.qual
    references := d.ref.map (fun g => g.2.map (fun rp => (rp.1, rp.2.str))) }

/-- Resolve each listed property's datatype unless already cached (lines
64-67); a failed lookup raises. -/
def resolveProps (e : Engine) (m : List (String × String)) :
    List String → Except String (List (String × String))
  | [] => Except.ok m
  | p :: rest =>
    if alMem m p then resolveProps e m rest
    else
      match get_prop_datatype e p with
      | some d => resolveProps e (alSet m p d) rest
      | none => Except.error ("datatype lookup failed for " ++ p)

/-- The qualifier property ids occurring in one property group. -/
def groupQualProps (sids : List (String × SRec)) : List String :=
  (sids.map (fun sd => sd.2.qual.map (·.1))).flatten

/-- The reference property ids occurring in one property group. -/
def groupRefProps (sids : List (String × SRec)) : List String :=
  (sids.map (fun sd => (sd.2.ref.map (fun g => g.2.map (·.1))).flatten)).flatten

/-- Build one reconstructed statement, looking up the qualifier, reference
and principal datatypes in the datatype map (a missing entry raises, as
the dict indexings at lines 73, 81 and 86 would). -/
def buildStmt (m : List (String × String)) (prop_nr : String) (d : SRec) :
    Except String WDStatement :=
  if !(d.qual.all (fun q => alMem m q.1)) then
    Except.error "KeyError: qualifier datatype"
  else if !((d.ref.map (·.2)).flatten.all (fun rp => alMem m rp.1)) then
    Except.error "KeyError: reference datatype"
  else
    match alGet m prop_nr with
    | none => Except.error "KeyError: principal datatype"
    | some dt => Except.ok (stmtOf dt prop_nr d)

/-- Build every statement of one property group in cache order. -/
def buildAll (m : List (String × String)) (p : String) :
    List (String × SRec) → Except String (List WDStatement)
  | [] => Except.ok []
  | sd :: rest =>
    match buildStmt m p sd.2 with
    | Except.error e => Except.error e
    | Except.ok st =>
      match buildAll m p rest with
      | Except.error e => Except.error e
      | Except.ok sts => Except.ok (st :: sts)

/-- Reconstruct the statements of every property group of one entity
(lines 59-88): per group, resolve the qualifier/reference datatypes, then
build each statement in cache order. -/
def reconAll (e : Engine) (m : List (String × String)) :
    List (String × List (String × SRec)) →
    Except String (List WDStatement × List (String × String))
  | [] => Except.ok ([], m)
  | (p, sids) :: rest =>
    match resolveProps e m (groupQualProps sids ++ groupRefProps sids) with
    | Except.error e' => Except.error e'
    | Except.ok m1 =>
      match buildAll m1 p sids with
      | Except.error e' => Except.error e'
      | Except.ok sts =>
        match reconAll e m1 rest with
        | Except.error e' => Except.error e'
        | Except.ok (more, m2) => Except.ok (sts ++ more, m2)

/-- `reconstruct_statements` (lines 57-91): rebuild the statement objects
of one cached entity, storing them in `reconstructed_statements` and
keeping any datatypes resolved along the way. -/
def reconstruct_statements (c : FRC) (qid : String) :
    Except String (List WDStatement × FRC) :=
  match alGet c.prop_data qid with
  | none => Except.error "KeyError: qid not cached"
  | some entity =>
    match reconAll c.engine c.prop_dt_map entity with
    | Except.error e => Except.error e
    | Except.ok (sts, m) =>
      Except.ok (sts, { c with prop_dt_map := m, reconstructed_statements := sts })

/-- Modelled from the spec: Python `str(value)` on the raw value object,
as used by the wikibase-item formatting at line 123. -/
def WDVal.pyStr : WDVal → String
  | .s v => v
  | .itemStr n => n
  | .timeTup t _ => t

/-- Modelled from the spec: Python `value[0]`, as used by the time
normalization at line 121 (the first tuple element; on a plain string, its
first character). -/
def WDVal.pyFirst : WDVal → String
  | .s v => v.take 1
  | .itemStr n => n.take 1
  | .timeTup t _ => t

/-- Value normalization of `write_required` (lines 119-123): time values
reduce to their first tuple element, wikibase-item values are formatted
`Q{value}`, everything else is looked up as-is. -/
def normalizeCur (dt : String) (v : WDVal) : String :=
  if dt == "time" then v.pyFirst
  else if dt == "wikibase-item" then "Q" ++ v.pyStr
  else v.pyStr

/-- Outcome of the candidate-collection loop of `write_required` (lines
104-137): either the early `return True` of line 136, or the collected
per-statement candidate sets plus the `write_required` flag accumulated so
far (set by the globe-coordinate case of line 125). -/
inductive P1Out where
  | earlyTrue
  | sets (ms : List (List String)) (wr : Bool)

/-- The candidate-collection loop of `write_required` (lines 104-137):
skip deletion markers; resolve and populate a property on first sight;
normalize the value per datatype; flag globe-coordinate statements; return
early when a value was never indexed, else record a copy of its candidate
set. -/
def phase1 (c : FRC) (wr : Bool) :
    List WDStatement → Except String (P1Out × FRC)
  | [] => Except.ok (P1Out.sets [] wr, c)
  | date :: rest =>
    if !(valTruthy date.value) && !(dtTruthy date.data_type) then
      phase1 c wr rest
    else
      let resolved : Except String FRC :=
        if alMem c.prop_dt_map date.prop_nr then Except.ok c
        else
          match get_prop_datatype c.engine date.prop_nr with
          | some d =>
            _query_data { c with prop_dt_map := alSet c.prop_dt_map date.prop_nr d }
              date.prop_nr
          | none => Except.error ("datatype lookup failed for " ++ date.prop_nr)
      match resolved with
      | Except.error e => Except.error e
      | Except.ok c1 =>
        match alGet c1.prop_dt_map date.prop_nr with
        | none => Except.error "KeyError: datatype"
        | some dt =>
          let wr1 := wr || dt == "globe-coordinate"
          match date.value.map (normalizeCur dt) with
          | none => Except.ok (P1Out.earlyTrue, c1)
          | some cv =>
            if alMem c1.rev_lookup cv then
              match phase1 c1 wr1 rest with
              | Except.error e => Except.error e
              | Except.ok (P1Out.earlyTrue, c2) => Except.ok (P1Out.earlyTrue, c2)
              | Except.ok (P1Out.sets ms w, c2) =>
                Except.ok (P1Out.sets (((alGet c1.rev_lookup cv).getD []) :: ms) w, c2)
            else Except.ok (P1Out.earlyTrue, c1)

/-- The pairwise comparison list of the append handling (line 161): the
number of (desired, reconstructed) pairs of one property that compare
equal. -/
def pairTrues (ur : Bool) (fr : Option RefCmp) (app rec : List WDStatement) : Nat :=
  (app.map (fun x => (rec.filter (fun y => equalsW ur fr x y)).length)).sum

/-- The append-property loop (lines 157-163): the first property whose
equal-pair count differs from its desired-statement count forces a write. -/
def appendCheck (ur : Bool) (fr : Option RefCmp)
    (data tmp_rs : List WDStatement) : List String → Bool
  | [] => false
  | p :: rest =>
    let app_data := data.filter (fun x => x.prop_nr == p)
    let rec_app := tmp_rs.filter (fun x => x.prop_nr == p)
    if pairTrues ur fr app_data rec_app != app_data.length then true
    else appendCheck ur fr data tmp_rs rest

/-- `tmp_rs.pop(bool_vec.index(True))`: drop the first element satisfying
the predicate. -/
def popFirst {α : Type} (p : α → Bool) : List α → List α
  | [] => []
  | x :: xs => if p x then xs else x :: popFirst p xs

/-- The main comparison loop of `write_required` (lines 168-214): a
deletion marker whose property survives in the working copy returns
immediately; other deletion markers and append properties are skipped; a
desired statement with no structural match flags a write, otherwise its
first match is consumed; a non-empty working copy at the end flags a
write. -/
def wrLoop (ur : Bool) (fr : Option RefCmp)
    (append_props del_props : List String) :
    List WDStatement → List WDStatement → Bool → Bool
  | [], tmp_rs, wr => wr || !tmp_rs.isEmpty
  | date :: rest, tmp_rs, wr =>
    if !(valTruthy date.value) || !(dtTruthy date.data_type) then
      if (tmp_rs.map (·.prop_nr)).contains date.prop_nr then true
      else wrLoop ur fr append_props del_props rest tmp_rs wr
    else if append_props.contains date.prop_nr then
      wrLoop ur fr append_props del_props rest tmp_rs wr
    else
      let pf := fun x => equalsW ur fr x date && !(del_props.contains x.prop_nr)
      if tmp_rs.any pf then
        wrLoop ur fr append_props del_props rest (popFirst pf tmp_rs) wr
      else wrLoop ur fr append_props del_props rest tmp_rs true

/-- The tail of `write_required` once a single matching entity is fixed
(lines 151-214): record it as `current_qid`, reconstruct its statements,
run the append handling, restrict the working copy to non-append desired
properties, and run the main comparison loop. -/
def matchedStage (c : FRC) (data : List WDStatement)
    (append_props : List String) (wr : Bool) (qid : String) :
    Except String (Bool × FRC) :=
  let data_props :=
    (data.filter (fun x => valTruthy x.value && dtTruthy x.data_type)).map (·.prop_nr)
  let del_props :=
    (data.filter (fun x => !(valTruthy x.value) && !(dtTruthy x.data_type))).map (·.prop_nr)
  match reconstruct_statements { c with current_qid := qid } qid with
  | Except.error e => Except.error e
  | Except.ok (rst, c1) =>
    if appendCheck c1.use_refs c1.ref_comparison_f data rst append_props then
      Except.ok (true, c1)
    else
      let tmp_rs := rst.filter
        (fun x => !(append_props.contains x.prop_nr) && data_props.contains x.prop_nr)
      Except.ok (wrLoop c1.use_refs c1.ref_comparison_f append_props del_props data tmp_rs wr, c1)

/-- Candidate intersection when no entity id was supplied (lines 139-151):
`match_sets[0]` raises on an empty list; an intersection of any size other
than one returns `True`. -/
def interStage (c : FRC) (data : List WDStatement)
    (append_props : List String) (ms : List (List String)) (wr : Bool) :
    Except String (Bool × FRC) :=
  match ms with
  | [] => Except.error "IndexError: list index out of range"
  | m :: rest =>
    match m.filter (fun q => rest.all (fun s => s.contains q)) with
    | [qid] => matchedStage c data append_props wr qid
    | _ => Except.ok (true, c)

/-- `write_required` (lines 93-214). -/
def write_required (c : FRC) (data : List WDStatement)
    (append_props : List String) (cqid : Option String) :
    Except String (Bool × FRC) :=
  match phase1 c false data with
  | Except.error e => Except.error e
  | Except.ok (P1Out.earlyTrue, c1) => Except.ok (true, c1)
  | Except.ok (P1Out.sets ms wr, c1) =>
    match cqid with
    | some q =>
      if q == "" then interStage c1 data append_props ms wr
      else matchedStage c1 data append_props wr q
    | none => interStage c1 data append_props ms wr

/-- `init_language_data` (lines 216-228): populate the (language, kind)
bucket once. -/
def init_language_data (c : FRC) (lang lang_data_type : String) : FRC :=
  let ll := if alMem c.loaded_langs lang then c.loaded_langs
            else alSet c.loaded_langs lang []
  let ll := alUpd ll lang []
    (fun m => if alMem m lang_data_type then m
              else alSet m lang_data_type (c.engine.langBindings lang lang_data_type))
  { c with loaded_langs := ll }

/-- `get_language_data` (lines 230-248): the cached strings for one
entity, with an empty label/description normalized to `[""]`. -/
def get_language_data (c : FRC) (qid lang lang_data_type : String) :
    List String × FRC :=
  let c := init_language_data c lang lang_data_type
  let bs := (((alGet c.loaded_langs lang).bind (fun m => alGet m lang_data_type)).getD [])
  let strs := (bs.filter (fun b => fmtLast b.item.value == qid)).filterMap
    (fun b => b.label.map (·.value))
  if strs.isEmpty && (lang_data_type == "label" || lang_data_type == "description") then
    ([""], c)
  else (strs, c)

/-- `check_language_data` (lines 250-267): true when some desired string
is absent. -/
def check_language_data (c : FRC) (qid : String) (lang_data : List String)
    (lang lang_data_type : String) : Bool × FRC :=
  let (all_lang_strings, c) := get_language_data c qid lang lang_data_type
  (lang_data.any (fun s => !(all_lang_strings.contains s)), c)

/-! ### Basic lemmas about the container combinators -/

theorem subsetB_iff {α : Type} [BEq α] [LawfulBEq α] {l1 l2 : List α} :
    subsetB l1 l2 = true ↔ ∀ x ∈ l1, x ∈ l2 := by
  simp [subsetB, List.contains, List.elem_iff]

theorem qualSetEq_refl (l : List (String × String)) : qualSetEq l l = true := by
  simp [qualSetEq, subsetB_iff]

theorem qualSetEq_symm {a b : List (String × String)}
    (h : qualSetEq a b = true) : qualSetEq b a = true := by
  simp only [qualSetEq, Bool.and_eq_true] at h ⊢
  exact ⟨h.2, h.1⟩

theorem qualSetEq_trans {a b c : List (String × String)}
    (h1 : qualSetEq a b = true) (h2 : qualSetEq b c = true) :
    qualSetEq a c = true := by
  simp only [qualSetEq, Bool.and_eq_true, subsetB_iff] at h1 h2 ⊢
  exact ⟨fun x hx => h2.1 x (h1.1 x hx), fun x hx => h1.2 x (h2.2 x hx)⟩

theorem equalsW_refl (ur : Bool) (fr : Option RefCmp)
    (h : ∀ r, effRefCmp ur fr r r = true) (x : WDStatement) :
    equalsW ur fr x x = true := by
  simp [equalsW, qualSetEq_refl, h]

theorem equalsW_symm {ur : Bool} {fr : Option RefCmp}
    (h : ∀ r1 r2, effRefCmp ur fr r1 r2 = true → effRefCmp ur fr r2 r1 = true)
    {x y : WDStatement} (hxy : equalsW ur fr x y = true) :
    equalsW ur fr y x = true := by
  simp only [equalsW, Bool.and_eq_true] at hxy ⊢
  obtain ⟨⟨⟨h1, h2⟩, h3⟩, h4⟩ := hxy
  refine ⟨⟨⟨?_, ?_⟩, qualSetEq_symm h3⟩, h _ _ h4⟩
  · simp [eq_of_beq h1]
  · simp [eq_of_beq h2]

theorem equalsW_trans {ur : Bool} {fr : Option RefCmp}
    (h : ∀ r1 r2 r3, effRefCmp ur fr r1 r2 = true → effRefCmp ur fr r2 r3 = true →
      effRefCmp ur fr r1 r3 = true)
    {x y z : WDStatement} (hxy : equalsW ur fr x y = true)
    (hyz : equalsW ur fr y z = true) : equalsW ur fr x z = true := by
  simp only [equalsW, Bool.and_eq_true] at hxy hyz ⊢
  obtain ⟨⟨⟨h1, h2⟩, h3⟩, h4⟩ := hxy
  obtain ⟨⟨⟨g1, g2⟩, g3⟩, g4⟩ := hyz
  refine ⟨⟨⟨?_, ?_⟩, qualSetEq_trans h3 g3⟩, h _ _ _ h4 g4⟩
  · simp [eq_of_beq h1, eq_of_beq g1]
  · simp [eq_of_beq h2, eq_of_beq g2]

theorem popFirst_decomp {α : Type} (p : α → Bool) :
    ∀ l : List α, l.any p = true →
      ∃ l1 x l2, l = l1 ++ x :: l2 ∧ p x = true ∧ (∀ z ∈ l1, p z = false) ∧
        popFirst p l = l1 ++ l2 := by
  intro l
  induction l with
  | nil => intro h; simp at h
  | cons a l ih =>
    intro h
    by_cases hp : p a = true
    · exact ⟨[], a, l, by simp, hp, by simp, by simp [popFirst, hp]⟩
    · have hl : l.any p = true := by
        rcases List.any_eq_true.mp h with ⟨x, hx, hpx⟩
        rw [List.mem_cons] at hx
        rcases hx with rfl | hx
        · exact absurd hpx hp
        · exact List.any_eq_true.mpr ⟨x, hx, hpx⟩
      obtain ⟨l1, x, l2, he, hx, hni, hpop⟩ := ih hl
      refine ⟨a :: l1, x, l2, by simp [he], hx, ?_, ?_⟩
      · intro z hz
        rw [List.mem_cons] at hz
        rcases hz with rfl | hz
        · exact Bool.eq_false_iff.mpr hp
        · exact hni z hz
      · simp [popFirst, hp, hpop]

/-! ### Lemmas about the main comparison loop -/

theorem wrLoop_of_true (ur : Bool) (fr : Option RefCmp)
    (ap dp : List String) :
    ∀ (data tmp : List WDStatement), wrLoop ur fr ap dp data tmp true = true := by
  intro data
  induction data with
  | nil => intro tmp; simp [wrLoop]
  | cons d rest ih =>
    intro tmp
    simp only [wrLoop]
    split
    · split
      · rfl
      · exact ih tmp
    · split
      · exact ih tmp
      · split
        · exact ih _
        · exact ih tmp

theorem wrLoop_self (ur : Bool) (fr : Option RefCmp)
    (hrefl : ∀ x : WDStatement, equalsW ur fr x x = true)
    (hsymm : ∀ {x y : WDStatement}, equalsW ur fr x y = true →
      equalsW ur fr y x = true)
    (htrans : ∀ {x y z : WDStatement}, equalsW ur fr x y = true →
      equalsW ur fr y z = true → equalsW ur fr x z = true) :
    ∀ (data tmp : List WDStatement),
      (∀ d ∈ data, valTruthy d.value = true ∧ dtTruthy d.data_type = true) →
      (∀ x : WDStatement,
        data.countP (fun y => equalsW ur fr y x) =
        tmp.countP (fun y => equalsW ur fr y x)) →
      wrLoop ur fr [] [] data tmp false = false := by
  intro data
  induction data with
  | nil =>
    intro tmp htr hcnt
    cases tmp with
    | nil => simp [wrLoop]
    | cons t ts =>
      exfalso
      have h0 := hcnt t
      simp [List.countP_cons, hrefl t] at h0
  | cons d rest ih =>
    intro tmp htr hcnt
    have hd := htr d (by simp)
    have hpos : 0 < tmp.countP (fun y => equalsW ur fr y d) := by
      rw [← hcnt d]
      simp [List.countP_cons, hrefl d]
    have hany : tmp.any (fun y => equalsW ur fr y d) = true := by
      rcases List.countP_pos_iff.mp hpos with ⟨a, ha, hpa⟩
      exact List.any_eq_true.mpr ⟨a, ha, hpa⟩
    obtain ⟨l1, x0, l2, he, hx0, -, hpop⟩ :=
      popFirst_decomp (fun y => equalsW ur fr y d) tmp hany
    subst he
    have hcnt' : ∀ x : WDStatement,
        rest.countP (fun y => equalsW ur fr y x) =
        (l1 ++ l2).countP (fun y => equalsW ur fr y x) := by
      intro x
      have hc := hcnt x
      simp only [List.countP_cons, List.countP_append] at hc ⊢
      have hiff : equalsW ur fr d x = true ↔ equalsW ur fr x0 x = true := by
        constructor
        · intro hdx; exact htrans hx0 hdx
        · intro hx0x; exact htrans (hsymm hx0) hx0x
      by_cases hdx : equalsW ur fr d x = true
      · rw [if_pos hdx, if_pos (hiff.mp hdx)] at hc
        omega
      · rw [if_neg hdx, if_neg (fun hh => hdx (hiff.mpr hh))] at hc
        omega
    have ihres := ih (l1 ++ l2)
      (fun d' hd' => htr d' (List.mem_cons_of_mem _ hd'))
      hcnt'
    have hpf : (fun x => equalsW ur fr x d && !(List.contains ([] : List String) x.prop_nr))
        = (fun y => equalsW ur fr y d) := by
      funext x; simp
    simp only [wrLoop]
    rw [if_neg (by simp [hd.1, hd.2]), if_neg (by simp), hpf, if_pos hany, hpop]
    exact ihres

/-! ### Lemmas about the statement reconstructor -/

/-- All datatype-map keys the reconstruction of one entity reads: each
property group's principal property together with its qualifier and
reference properties. -/
def entityDtProps (entity : List (String × List (String × SRec))) : List String :=
  (entity.map (fun g => g.1 :: (groupQualProps g.2 ++ groupRefProps g.2))).flatten

/-- The statement list reconstruction produces when every needed datatype
is already resolved. -/
def reconListOf (m : List (String × String))
    (entity : List (String × List (String × SRec))) : List WDStatement :=
  (entity.map (fun g => g.2.map (fun sd => stmtOf ((alGet m g.1).getD "") g.1 sd.2))).flatten

theorem alGet_alSet {α : Type} (k : String) (v : α) (k' : String) :
    ∀ m : List (String × α),
      alGet (alSet m k v) k' = if k' = k then some v else alGet m k' := by
  intro m
  induction m with
  | nil =>
    simp only [alSet, alGet, List.find?]
    by_cases h : k' = k
    · subst h; simp
    · have hbe : (k == k') = false := by simp [Ne.symm h]
      simp [hbe, h]
  | cons a m ih =>
    by_cases hak : a.1 = k
    · have : alSet (a :: m) k v = (a.1, v) :: m := by
        simp [alSet, hak]
      rw [this]
      by_cases h : k' = k
      · simp [alGet, List.find?, hak, h]
      · simp only [alGet] at *
        rw [List.find?_cons_of_neg, if_neg h]
        · rcases a with ⟨a1, a2⟩
          simp only at hak
          subst hak
          rw [List.find?_cons_of_neg]
          simp [Ne.symm h]
        · simp [hak, Ne.symm h]
    · have : alSet (a :: m) k v = a :: alSet m k v := by
        simp [alSet, hak]
      rw [this]
      by_cases hK : a.1 = k'
      · simp only [alGet] at *
        rw [List.find?_cons_of_pos, List.find?_cons_of_pos]
        · by_cases h : k' = k
          · exact absurd (hK.trans h) hak
          · simp [h]
        · simp [hK]
        · simp [hK]
      · simp only [alGet] at *
        rw [List.find?_cons_of_neg, List.find?_cons_of_neg]
        · exact ih
        · simp [hK]
        · simp [hK]

theorem alMem_isSome {α : Type} {m : List (String × α)} {k : String}
    (h : alMem m k = true) : ∃ v, alGet m k = some v := by
  simp only [alMem, Option.isSome_iff_exists] at h
  exact h

theorem resolveProps_resolved (e : Engine) (m : List (String × String)) :
    ∀ ps : List String, (∀ p ∈ ps, alMem m p = true) →
      resolveProps e m ps = Except.ok m := by
  intro ps
  induction ps with
  | nil => intro _; rfl
  | cons p rest ih =>
    intro h
    simp only [resolveProps]
    rw [if_pos (h p (by simp))]
    exact ih (fun q hq => h q (List.mem_cons_of_mem _ hq))

theorem buildStmt_resolved (m : List (String × String)) (p : String)
    (dt : String) (hdt : alGet m p = some dt) (d : SRec)
    (hq : ∀ q ∈ d.qual, alMem m q.1 = true)
    (hr : ∀ rp ∈ (d.ref.map (·.2)).flatten, alMem m rp.1 = true) :
    buildStmt m p d = Except.ok (stmtOf dt p d) := by
  have hqB : (d.qual.all fun q => alMem m q.1) = true :=
    List.all_eq_true.mpr (fun q hq2 => hq q hq2)
  have hrB : ((d.ref.map (·.2)).flatten.all fun rp => alMem m rp.1) = true :=
    List.all_eq_true.mpr (fun rp hrp => hr rp hrp)
  simp only [buildStmt, hqB, hrB, Bool.not_true]
  rw [if_neg (by simp), if_neg (by simp), hdt]

theorem buildAll_resolved (m : List (String × String)) (p : String)
    (dt : String) (hdt : alGet m p = some dt) :
    ∀ sids : List (String × SRec),
      (∀ sd ∈ sids, (∀ q ∈ sd.2.qual, alMem m q.1 = true) ∧
        (∀ rp ∈ (sd.2.ref.map (·.2)).flatten, alMem m rp.1 = true)) →
      buildAll m p sids = Except.ok (sids.map (fun sd => stmtOf dt p sd.2)) := by
  intro sids
  induction sids with
  | nil => intro _; rfl
  | cons sd rest ih =>
    intro h
    have hsd := h sd (by simp)
    simp only [buildAll]
    rw [buildStmt_resolved m p dt hdt sd.2 hsd.1 hsd.2,
      ih (fun x hx => h x (List.mem_cons_of_mem _ hx))]
    simp

theorem reconAll_resolved (e : Engine) (m : List (String × String)) :
    ∀ entity : List (String × List (String × SRec)),
      (∀ p ∈ entityDtProps entity, alMem m p = true) →
      reconAll e m entity = Except.ok (reconListOf m entity, m) := by
  intro entity
  induction entity with
  | nil => intro _; rfl
  | cons g rest ih =>
    obtain ⟨p, sids⟩ := g
    intro h
    have hmemAll : ∀ q ∈ p :: (groupQualProps sids ++ groupRefProps sids),
        alMem m q = true := by
      intro q hq
      refine h q ?_
      simp only [entityDtProps, List.mem_flatten]
      exact ⟨_, List.mem_map.mpr ⟨(p, sids), by simp, rfl⟩, hq⟩
    have hrest : ∀ q ∈ entityDtProps rest, alMem m q = true := by
      intro q hq
      refine h q ?_
      simp only [entityDtProps, List.mem_flatten] at hq ⊢
      obtain ⟨l, hl, hql⟩ := hq
      rw [List.mem_map] at hl
      obtain ⟨g', hg', rfl⟩ := hl
      exact ⟨_, List.mem_map.mpr ⟨g', List.mem_cons_of_mem _ hg', rfl⟩, hql⟩
    obtain ⟨dt, hdt⟩ := alMem_isSome (hmemAll p (by simp))
    have hquals : ∀ sd ∈ sids, (∀ q ∈ sd.2.qual, alMem m q.1 = true) ∧
        (∀ rp ∈ (sd.2.ref.map (·.2)).flatten, alMem m rp.1 = true) := by
      intro sd hsd
      constructor
      · intro q hqm
        refine hmemAll q.1 (List.mem_cons_of_mem _ (List.mem_append_left _ ?_))
        simp only [groupQualProps, List.mem_flatten]
        exact ⟨_, List.mem_map.mpr ⟨sd, hsd, rfl⟩, List.mem_map.mpr ⟨q, hqm, rfl⟩⟩
      · intro rp hrp
        refine hmemAll rp.1 (List.mem_cons_of_mem _ (List.mem_append_right _ ?_))
        simp only [groupRefProps, List.mem_flatten]
        rw [List.mem_flatten] at hrp
        obtain ⟨l, hl, hrpl⟩ := hrp
        rw [List.mem_map] at hl
        obtain ⟨grp, hgrp, rfl⟩ := hl
        refine ⟨_, List.mem_map.mpr ⟨sd, hsd, rfl⟩, ?_⟩
        rw [List.mem_flatten]
        exact ⟨_, List.mem_map.mpr ⟨grp, hgrp, rfl⟩, List.mem_map.mpr ⟨rp, hrpl, rfl⟩⟩
    have hres : resolveProps e m (groupQualProps sids ++ groupRefProps sids) =
        Except.ok m := by
      refine resolveProps_resolved e m _ (fun q hq => ?_)
      exact hmemAll q (List.mem_cons_of_mem _ hq)
    simp only [reconAll, hres, buildAll_resolved m p dt hdt sids hquals, ih hrest,
      reconListOf, List.map_cons, List.flatten_cons, hdt, Option.getD_some]

theorem reconstruct_resolved (c : FRC) (qid : String)
    (entity : List (String × List (String × SRec)))
    (hent : alGet c.prop_data qid = some entity)
    (hres : ∀ p ∈ entityDtProps entity, alMem c.prop_dt_map p = true) :
    reconstruct_statements c qid =
      Except.ok (reconListOf c.prop_dt_map entity,
        { c with reconstructed_statements := reconListOf c.prop_dt_map entity }) := by
  simp only [reconstruct_statements, hent,
    reconAll_resolved c.engine c.prop_dt_map entity hres]

/-! ### Lemmas about the candidate-collection loop -/

theorem query_data_fields {c : FRC} {p : String} {c' : FRC}
    (h : _query_data c p = Except.ok c') :
    c'.prop_dt_map = c.prop_dt_map ∧ c'.engine = c.engine ∧
    c'.use_refs = c.use_refs ∧ c'.ref_comparison_f = c.ref_comparison_f := by
  simp only [_query_data] at h
  split at h
  · exact Except.noConfusion h
  · split at h
    · exact Except.noConfusion h
    · simp only [Except.ok.injEq] at h
      subst h
      simp

/-- A desired statement the candidate loop can fully process against the
current caches: non-empty value and datatype, resolved non-coordinate
property, and an indexed normalized value. -/
def goodStmt (c : FRC) (st : WDStatement) : Prop :=
  valTruthy st.value = true ∧ dtTruthy st.data_type = true ∧
  ∃ dt v, alGet c.prop_dt_map st.prop_nr = some dt ∧
    (dt == "globe-coordinate") = false ∧
    st.value = some v ∧ alMem c.rev_lookup (normalizeCur dt v) = true

theorem phase1_good (c : FRC) :
    ∀ (data : List WDStatement) (wr : Bool), (∀ st ∈ data, goodStmt c st) →
      ∃ ms, phase1 c wr data = Except.ok (P1Out.sets ms wr, c) := by
  intro data
  induction data with
  | nil => exact fun wr _ => ⟨[], rfl⟩
  | cons d rest ih =>
    intro wr h
    obtain ⟨hv, hdt, dt, v, hget, hcoord, hval, hrev⟩ := h d (by simp)
    obtain ⟨ms, hms⟩ := ih wr (fun st hst => h st (List.mem_cons_of_mem _ hst))
    have hmem : alMem c.prop_dt_map d.prop_nr = true := by
      simp [alMem, hget]
    have hv' : valTruthy (some v) = true := by rw [← hval]; exact hv
    refine ⟨((alGet c.rev_lookup (normalizeCur dt v)).getD []) :: ms, ?_⟩
    simp only [phase1, hval, hv', hdt, Bool.not_true, Bool.false_and,
      Bool.and_false, Bool.false_eq_true, if_false, hmem, if_true, hget, hcoord,
      Bool.or_false, Option.map_some', hrev, hms]

theorem phase1_early (c : FRC) :
    ∀ (data : List WDStatement) (wr : Bool),
      (∀ st ∈ data, (valTruthy st.value || dtTruthy st.data_type) = true →
        alMem c.prop_dt_map st.prop_nr = true) →
      (∃ st ∈ data, valTruthy st.value = true ∧ dtTruthy st.data_type = true ∧
        ∀ dt, alGet c.prop_dt_map st.prop_nr = some dt →
          ∀ cv, st.value.map (normalizeCur dt) = some cv →
            alMem c.rev_lookup cv = false) →
      phase1 c wr data = Except.ok (P1Out.earlyTrue, c) := by
  intro data
  induction data with
  | nil =>
    intro wr _ hex
    obtain ⟨st, hst, -⟩ := hex
    exact absurd hst (List.not_mem_nil st)
  | cons d rest ih =>
    intro wr hres hex
    by_cases hskip : (!(valTruthy d.value) && !(dtTruthy d.data_type)) = true
    · have hvfalse : valTruthy d.value = false := by
        rw [Bool.and_eq_true] at hskip
        simpa using hskip.1
      obtain ⟨st, hst, hstv, hstd, hstl⟩ := hex
      rw [List.mem_cons] at hst
      rcases hst with rfl | hst
      · rw [hvfalse] at hstv; exact Bool.noConfusion hstv
      · simp only [phase1, hskip, if_true]
        exact ih wr (fun s hs hp => hres s (List.mem_cons_of_mem _ hs) hp)
          ⟨st, hst, hstv, hstd, hstl⟩
    · have hproc : (valTruthy d.value || dtTruthy d.data_type) = true := by
        cases hv2 : valTruthy d.value with
        | true => simp
        | false =>
          cases hd2 : dtTruthy d.data_type with
          | true => simp
          | false => exact absurd (by simp [hv2, hd2]) hskip
      have hmem : alMem c.prop_dt_map d.prop_nr = true := hres d (by simp) hproc
      obtain ⟨dt, hget⟩ := alMem_isSome hmem
      simp only [phase1, hskip, Bool.false_eq_true, if_false, hmem, if_true, hget]
      cases hvm : d.value.map (normalizeCur dt) with
      | none => rfl
      | some cv =>
        cases hrl : alMem c.rev_lookup cv with
        | false => simp [hrl]
        | true =>
          obtain ⟨st, hst, hstv, hstd, hstl⟩ := hex
          rw [List.mem_cons] at hst
          rcases hst with rfl | hst
          · rw [hstl dt hget cv hvm] at hrl
            exact Bool.noConfusion hrl
          · have hrec := ih (wr || (dt == "globe-coordinate"))
              (fun s hs hp => hres s (List.mem_cons_of_mem _ hs) hp)
              ⟨st, hst, hstv, hstd, hstl⟩
            simp [hrl, hrec]

theorem phase1_skip_all (c : FRC) (wr : Bool) :
    ∀ data : List WDStatement,
      (∀ d ∈ data, valTruthy d.value = false ∧ dtTruthy d.data_type = false) →
      phase1 c wr data = Except.ok (P1Out.sets [] wr, c) := by
  intro data
  induction data with
  | nil => intro _; rfl
  | cons d rest ih =>
    intro h
    have hd := h d (by simp)
    simp only [phase1, hd.1, hd.2, Bool.not_false, Bool.and_self, if_true]
    exact ih (fun s hs => h s (List.mem_cons_of_mem _ hs))

theorem phase1_sets_wr :
    ∀ (data : List WDStatement) (c : FRC) (ms : List (List String)) (w : Bool)
      (c' : FRC), phase1 c true data = Except.ok (P1Out.sets ms w, c') →
      w = true := by
  intro data
  induction data with
  | nil =>
    intro c ms w c' h
    simp only [phase1, Except.ok.injEq, Prod.mk.injEq, P1Out.sets.injEq] at h
    exact h.1.2.symm
  | cons d rest ih =>
    intro c ms w c' h
    simp only [phase1] at h
    split at h
    · exact ih c ms w c' h
    · split at h
      · exact Except.noConfusion h
      · split at h
        · exact Except.noConfusion h
        · rename_i resolvedV c1 hres1 x0 dt hget
          rw [Bool.true_or] at h
          rcases hvm : Option.map (normalizeCur dt) d.value with - | cv
          · rw [hvm] at h
            simp at h
          · rw [hvm] at h
            simp only [] at h
            by_cases hal : alMem c1.rev_lookup cv = true
            · rw [if_pos hal] at h
              rcases hrec : phase1 c1 true rest with e | oc2
              · rw [hrec] at h
                exact Except.noConfusion h
              · obtain ⟨out, c2⟩ := oc2
                rw [hrec] at h
                cases out with
                | earlyTrue => simp at h
                | sets ms1 w1 =>
                  simp only [Except.ok.injEq, Prod.mk.injEq, P1Out.sets.injEq] at h
                  obtain ⟨⟨-, hw⟩, -⟩ := h
                  exact hw ▸ ih c1 ms1 w1 c2 hrec
            · rw [if_neg hal] at h
              simp at h

theorem phase1_coord :
    ∀ (data : List WDStatement) (c : FRC) (wr : Bool) (out : P1Out) (c2 : FRC),
      phase1 c wr data = Except.ok (out, c2) →
      (∃ st ∈ data, valTruthy st.value = true ∧ dtTruthy st.data_type = true ∧
        alGet c.prop_dt_map st.prop_nr = some "globe-coordinate") →
      out = P1Out.earlyTrue ∨ ∃ ms, out = P1Out.sets ms true := by
  intro data
  induction data with
  | nil =>
    intro c wr out c2 h hex
    obtain ⟨st, hst, -⟩ := hex
    exact absurd hst (List.not_mem_nil st)
  | cons d rest ih =>
    intro c wr out c2 h hex
    simp only [phase1] at h
    split at h
    · rename_i hskip
      obtain ⟨st, hst, h1, h2, h3⟩ := hex
      rw [List.mem_cons] at hst
      rcases hst with rfl | hst
      · rw [Bool.and_eq_true] at hskip
        have hvf : valTruthy st.value = false := by simpa using hskip.1
        rw [h1] at hvf
        exact Bool.noConfusion hvf
      · exact ih c wr out c2 h ⟨st, hst, h1, h2, h3⟩
    · split at h
      · exact Except.noConfusion h
      · split at h
        · exact Except.noConfusion h
        · rename_i hskip resolvedV c1 hres1 x0 dt hget
          have hpres : ∀ k v, alGet c.prop_dt_map k = some v →
              alGet c1.prop_dt_map k = some v := by
            intro k v hkv
            by_cases hm : alMem c.prop_dt_map d.prop_nr = true
            · rw [if_pos hm] at hres1
              cases hres1
              exact hkv
            · rw [if_neg hm] at hres1
              rcases hdt2 : get_prop_datatype c.engine d.prop_nr with - | dd
              · rw [hdt2] at hres1
                exact Except.noConfusion hres1
              · rw [hdt2] at hres1
                have hq : c1.prop_dt_map = alSet c.prop_dt_map d.prop_nr dd :=
                  (query_data_fields hres1).1
                rw [hq, alGet_alSet]
                by_cases hk : k = d.prop_nr
                · exfalso
                  apply hm
                  subst hk
                  simp [alMem, hkv]
                · rw [if_neg hk]
                  exact hkv
          obtain ⟨st, hst, h1, h2, h3⟩ := hex
          rw [List.mem_cons] at hst
          rcases hst with rfl | hst
          · have hdtc : dt = "globe-coordinate" :=
              Option.some.inj (hget.symm.trans (hpres _ _ h3))
            have hbeq : (dt == "globe-coordinate") = true := by
              rw [hdtc]; simp
            rw [hbeq, Bool.or_true] at h
            cases hv : st.value with
            | none => rw [hv] at h1; exact Bool.noConfusion h1
            | some v =>
              rw [hv] at h
              simp only [Option.map_some'] at h
              by_cases hal : alMem c1.rev_lookup (normalizeCur dt v) = true
              · rw [if_pos hal] at h
                rcases hrec : phase1 c1 true rest with e | oc3
                · rw [hrec] at h
                  exact Except.noConfusion h
                · obtain ⟨out', c3⟩ := oc3
                  rw [hrec] at h
                  cases out' with
                  | earlyTrue =>
                    simp only [Except.ok.injEq, Prod.mk.injEq] at h
                    exact Or.inl h.1.symm
                  | sets ms1 w1 =>
                    simp only [Except.ok.injEq, Prod.mk.injEq] at h
                    have hw1 : w1 = true := phase1_sets_wr rest c1 ms1 w1 c3 hrec
                    exact Or.inr ⟨_, h.1.symm.trans (by rw [hw1])⟩
              · rw [if_neg hal] at h
                simp only [Except.ok.injEq, Prod.mk.injEq] at h
                exact Or.inl h.1.symm
          · rcases hvm : Option.map (normalizeCur dt) d.value with - | cv
            · rw [hvm] at h
              simp only [Except.ok.injEq, Prod.mk.injEq] at h
              exact Or.inl h.1.symm
            · rw [hvm] at h
              simp only [] at h
              by_cases hal : alMem c1.rev_lookup cv = true
              · rw [if_pos hal] at h
                rcases hrec : phase1 c1 (wr || (dt == "globe-coordinate")) rest
                    with e | oc3
                · rw [hrec] at h
                  exact Except.noConfusion h
                · obtain ⟨out', c3⟩ := oc3
                  rw [hrec] at h
                  have hsub := ih c1 (wr || (dt == "globe-coordinate")) out' c3 hrec
                    ⟨st, hst, h1, h2, hpres _ _ h3⟩
                  cases out' with
                  | earlyTrue =>
                    simp only [Except.ok.injEq, Prod.mk.injEq] at h
                    exact Or.inl h.1.symm
                  | sets ms1 w1 =>
                    simp only [Except.ok.injEq, Prod.mk.injEq] at h
                    rcases hsub with hearly | ⟨ms2, hsets⟩
                    · exact P1Out.noConfusion hearly
                    · have hw1 : w1 = true := (P1Out.sets.inj hsets).2
                      exact Or.inr ⟨_, h.1.symm.trans (by rw [hw1])⟩
              · rw [if_neg hal] at h
                simp only [Except.ok.injEq, Prod.mk.injEq] at h
                exact Or.inl h.1.symm

/-! ### Lemma about the matched-entity stage -/

theorem matchedStage_true (c : FRC) (data : List WDStatement) (ap : List String)
    (q : String) (b : Bool) (c' : FRC)
    (h : matchedStage c data ap true q = Except.ok (b, c')) : b = true := by
  simp only [matchedStage] at h
  split at h
  · exact Except.noConfusion h
  · split at h
    · simp only [Except.ok.injEq, Prod.mk.injEq] at h
      exact h.1.symm
    · simp only [wrLoop_of_true, Except.ok.injEq, Prod.mk.injEq] at h
      exact h.1.symm

theorem interStage_true (c : FRC) (data : List WDStatement) (ap : List String)
    (ms : List (List String)) (b : Bool) (c' : FRC)
    (h : interStage c data ap ms true = Except.ok (b, c')) : b = true := by
  simp only [interStage] at h
  split at h
  · exact Except.noConfusion h
  · split at h
    · exact matchedStage_true _ _ _ _ _ _ h
    · simp only [Except.ok.injEq, Prod.mk.injEq] at h
      exact h.1.symm

/-- The example constant at the top of the source file. -/
def example_Q14911732 : List (String × List (String × SRec)) :=
  [("P1057",
    [("Q14911732-23F268EB-2848-4A82-A248-CF4DF6B256BC",
      { v := CVal.lit "Q847102",
        ref := [("9d96507726508344ef1b8f59092fb350171b3d99",
                 [("P248", CVal.lit "Q29458763"),
                  ("P594", CVal.lit "ENSG00000123374")])],
        qual := [("P659", "Q21067546"), ("P659", "Q20966585")] })])]

/-! ### Round-trip lemmas: reconstructed statements fed back as desired -/

/-- A cached value well-formed for its datatype: a formatted string (not a
blank node) under a non-empty, non-coordinate datatype, which the decision
procedure's normalization maps back to itself — wikibase-item values are
canonical `Q…` ids other than `Q0`, values of other datatypes are
non-empty. -/
def entryOK (dt : String) (v : CVal) : Bool :=
  match v with
  | CVal.bn _ => false
  | CVal.lit s =>
    !(dt == "") && !(dt == "globe-coordinate") &&
    (if dt == "time" then true
     else if dt == "wikibase-item" then
       ("Q" ++ s.drop 1 == s) && !(s.drop 1 == "0")
     else !(s == ""))

theorem entry_roundtrip {dt s : String}
    (h : entryOK dt (CVal.lit s) = true) :
    normalizeCur dt (valueFromCache dt s) = s ∧
    (valueFromCache dt s).truthy = true := by
  simp only [entryOK, Bool.and_eq_true] at h
  obtain ⟨⟨-, -⟩, h3⟩ := h
  by_cases ht : (dt == "time") = true
  · simp [valueFromCache, normalizeCur, ht, WDVal.pyFirst, WDVal.truthy]
  · by_cases hw : (dt == "wikibase-item") = true
    · rw [if_neg (by simp [ht]), if_pos hw] at h3
      rw [Bool.and_eq_true] at h3
      constructor
      · simp only [valueFromCache, ht, hw, Bool.false_eq_true, if_false, if_true,
          normalizeCur, WDVal.pyStr]
        exact eq_of_beq h3.1
      · simp only [valueFromCache, ht, hw, Bool.false_eq_true, if_false, if_true,
          WDVal.truthy]
        simp only [Bool.not_eq_true'] at h3 ⊢
        exact h3.2
    · rw [if_neg (by simp [ht]), if_neg (by simp [hw])] at h3
      constructor
      · simp [valueFromCache, normalizeCur, ht, hw, WDVal.pyStr]
      · simp only [valueFromCache, ht, hw, Bool.false_eq_true, if_false,
          WDVal.truthy]
        exact h3

theorem principal_mem_entityDtProps
    {entity : List (String × List (String × SRec))}
    {g : String × List (String × SRec)} (hg : g ∈ entity) :
    g.1 ∈ entityDtProps entity := by
  simp only [entityDtProps, List.mem_flatten]
  exact ⟨_, List.mem_map.mpr ⟨g, hg, rfl⟩, by simp⟩

theorem reconList_good (c : FRC)
    (entity : List (String × List (String × SRec)))
    (hres : ∀ p ∈ entityDtProps entity, alMem c.prop_dt_map p = true)
    (hwf : ∀ g ∈ entity, ∀ sd ∈ g.2,
      entryOK ((alGet c.prop_dt_map g.1).getD "") sd.2.v = true)
    (hrev : ∀ g ∈ entity, ∀ sd ∈ g.2, alMem c.rev_lookup sd.2.v.str = true) :
    ∀ st ∈ reconListOf c.prop_dt_map entity, goodStmt c st := by
  intro st hst
  simp only [reconListOf, List.mem_flatten] at hst
  obtain ⟨l, hl, hstl⟩ := hst
  rw [List.mem_map] at hl
  obtain ⟨g, hg, rfl⟩ := hl
  rw [List.mem_map] at hstl
  obtain ⟨sd, hsd, rfl⟩ := hstl
  obtain ⟨dt0, hdt0⟩ := alMem_isSome (hres g.1 (principal_mem_entityDtProps hg))
  have hwfg := hwf g hg sd hsd
  rw [hdt0, Option.getD_some] at hwfg ⊢
  have hlit : ∃ s, sd.2.v = CVal.lit s := by
    cases hv : sd.2.v with
    | lit s => exact ⟨s, rfl⟩
    | bn s => rw [hv] at hwfg; exact Bool.noConfusion hwfg
  obtain ⟨s, hs⟩ := hlit
  rw [hs] at hwfg
  have hrt := entry_roundtrip hwfg
  have hdtcomp : (!(dt0 == "") && !(dt0 == "globe-coordinate")) = true := by
    simp only [entryOK, Bool.and_eq_true] at hwfg
    rw [Bool.and_eq_true]
    exact hwfg.1
  rw [Bool.and_eq_true] at hdtcomp
  refine ⟨?_, ?_, dt0, valueFromCache dt0 s, ?_, ?_, ?_, ?_⟩
  · simp only [stmtOf, valTruthy, hs, CVal.str]
    exact hrt.2
  · simp only [stmtOf, dtTruthy]
    simpa using hdtcomp.1
  · simpa only [stmtOf] using hdt0
  · simpa using hdtcomp.2
  · simp [stmtOf, hs, CVal.str]
  · rw [hrt.1]
    have := hrev g hg sd hsd
    rw [hs] at this
    exact this

/-- The common core of the exact-match and subset no-op round trips: with
a well-formed fully resolved cache, feeding any per-property restriction
of an entity's reconstructed statements back as the desired set, with the
entity id supplied as `cqid`, yields `write required = false`. -/
theorem subset_roundtrip_false (c : FRC) (qid : String)
    (entity : List (String × List (String × SRec))) (S : List String)
    (hq : (qid == "") = false)
    (hent : alGet c.prop_data qid = some entity)
    (hres : ∀ p ∈ entityDtProps entity, alMem c.prop_dt_map p = true)
    (hwf : ∀ g ∈ entity, ∀ sd ∈ g.2,
      entryOK ((alGet c.prop_dt_map g.1).getD "") sd.2.v = true)
    (hrev : ∀ g ∈ entity, ∀ sd ∈ g.2, alMem c.rev_lookup sd.2.v.str = true)
    (hrefl : ∀ r, effRefCmp c.use_refs c.ref_comparison_f r r = true)
    (hsymm : ∀ r1 r2, effRefCmp c.use_refs c.ref_comparison_f r1 r2 = true →
      effRefCmp c.use_refs c.ref_comparison_f r2 r1 = true)
    (htrans : ∀ r1 r2 r3,
      effRefCmp c.use_refs c.ref_comparison_f r1 r2 = true →
      effRefCmp c.use_refs c.ref_comparison_f r2 r3 = true →
      effRefCmp c.use_refs c.ref_comparison_f r1 r3 = true) :
    write_required c
      ((reconListOf c.prop_dt_map entity).filter
        (fun st => S.contains st.prop_nr)) [] (some qid) =
      Except.ok (false,
        { c with
          current_qid := qid
          reconstructed_statements := reconListOf c.prop_dt_map entity }) := by
  set rs := reconListOf c.prop_dt_map entity with hrs
  set desired := rs.filter (fun st => S.contains st.prop_nr) with hdes
  have hgood : ∀ st ∈ rs, goodStmt c st := reconList_good c entity hres hwf hrev
  have hgoodD : ∀ st ∈ desired, goodStmt c st := by
    intro st hst
    rw [hdes, List.mem_filter] at hst
    exact hgood st hst.1
  have htru : ∀ st ∈ desired,
      valTruthy st.value = true ∧ dtTruthy st.data_type = true := by
    intro st hst
    exact ⟨(hgoodD st hst).1, (hgoodD st hst).2.1⟩
  obtain ⟨ms, hms⟩ := phase1_good c desired false hgoodD
  have hERefl : ∀ x : WDStatement, equalsW c.use_refs c.ref_comparison_f x x = true :=
    equalsW_refl c.use_refs c.ref_comparison_f hrefl
  -- the reconstruction performed inside the matched stage
  have hrec2 := reconstruct_resolved { c with current_qid := qid } qid entity
    hent hres
  -- data_props of the desired set
  have hdp : (desired.filter
      (fun x => valTruthy x.value && dtTruthy x.data_type)) = desired := by
    refine List.filter_eq_self.mpr (fun st hst => ?_)
    rw [Bool.and_eq_true]
    exact htru st hst
  have hdel : (desired.filter
      (fun x => !(valTruthy x.value) && !(dtTruthy x.data_type))) = [] := by
    refine List.filter_eq_nil_iff.mpr (fun st hst => ?_)
    have := htru st hst
    simp [this.1, this.2]
  -- the working copy equals the desired set
  have htmp : rs.filter
      (fun x => !(([] : List String).contains x.prop_nr) &&
        (desired.map (·.prop_nr)).contains x.prop_nr) = desired := by
    rw [hdes]
    refine List.filter_congr (fun st hst => ?_)
    simp only [List.contains_nil, Bool.not_false, Bool.true_and]
    cases hsc : S.contains st.prop_nr with
    | true =>
      have hmemD : st ∈ rs.filter (fun st => S.contains st.prop_nr) :=
        List.mem_filter.mpr ⟨hst, hsc⟩
      have hmm : st.prop_nr ∈
          (rs.filter (fun st => S.contains st.prop_nr)).map (·.prop_nr) :=
        List.mem_map.mpr ⟨st, hmemD, rfl⟩
      exact List.elem_iff.mpr hmm
    | false =>
      cases hdc : ((rs.filter (fun st => S.contains st.prop_nr)).map
          (·.prop_nr)).contains st.prop_nr with
      | false => rfl
      | true =>
        exfalso
        have : st.prop_nr ∈
            (rs.filter (fun st => S.contains st.prop_nr)).map (·.prop_nr) := by
          rw [← List.elem_iff]
          exact hdc
        rw [List.mem_map] at this
        obtain ⟨d, hd, hdp2⟩ := this
        rw [List.mem_filter] at hd
        rw [← hdp2] at hsc
        rw [hd.2] at hsc
        exact Bool.noConfusion hsc
  have hloop : wrLoop c.use_refs c.ref_comparison_f [] [] desired desired false =
      false := by
    refine wrLoop_self c.use_refs c.ref_comparison_f hERefl
      (fun hxy => equalsW_symm hsymm hxy)
      (fun hxy hyz => equalsW_trans htrans hxy hyz)
      desired desired htru (fun x => rfl)
  -- assemble the call
  simp only [write_required, hms, hq, Bool.false_eq_true, if_false, matchedStage,
    hrec2, appendCheck, hdp, hdel, htmp, List.map_nil, hloop]

/-- An engine that answers no queries, for containers whose caches are
already populated. -/
def engNone : Engine :=
  { dt := fun _ => none, bindings := fun _ _ => [], langBindings := fun _ _ => [] }

/-- Convenience constructor for concrete containers: empty language cache,
reference comparison disabled. -/
def mkFRC (pd : PropData) (m : List (String × String))
    (rl : List (String × List String)) (e : Engine) : FRC :=
  { prop_data := pd, loaded_langs := [], prop_dt_map := m, current_qid := "",
    rev_lookup := rl, engine := e, use_refs := false, ref_comparison_f := none,
    reconstructed_statements := [] }

/-! ### Claim C3 -/

/-- A container whose language cache has been populated for English labels. -/
def c3ex : FRC :=
  { mkFRC [("Q1", [])] [("P1", "string")] [("v", ["Q1"])] engNone with
    loaded_langs :=
      [("en", [("label",
        [⟨⟨"uri", "http://www.wikidata.org/entity/Q1", none⟩,
          some ⟨"literal", "hello", none⟩⟩])])] }

/-- C3 counterexample: `clear()` on a container with a populated language
cache leaves that cache intact — the claim that all four caches are empty
after `clear` is false. -/
theorem C3_counterexample :
    (FRC.clear c3ex).loaded_langs.isEmpty = false ∧
    (FRC.clear c3ex).loaded_langs = c3ex.loaded_langs :=
  ⟨rfl, rfl⟩

/-- C3 (amended): `clear` empties exactly three of the four caches — the
entity statement cache, the property datatype map and the reverse value
index; the language cache always survives unchanged, so statement-data
decisions repopulate from scratch while language data is still served from
the old cache. -/
theorem C3_clear_resets (c : FRC) :
    (FRC.clear c).prop_data = [] ∧ (FRC.clear c).prop_dt_map = [] ∧
    (FRC.clear c).rev_lookup = [] ∧
    (FRC.clear c).loaded_langs = c.loaded_langs :=
  ⟨rfl, rfl, rfl, rfl⟩

/-! ### Claim C9 -/

/-- A raw binding whose principal value is an unsigned `xsd:dateTime`
literal. -/
def c9bind : Binding :=
  { item := some ⟨"uri", "http://www.wikidata.org/entity/Q1", none⟩,
    sid := some ⟨"uri", "S1", none⟩,
    v := some ⟨"literal", "2020-01-01T00:00:00Z", some xsdDateTime⟩ }

/-- An engine returning that binding for property `P1`. -/
def c9eng : Engine :=
  { dt := fun _ => none,
    bindings := fun _ p => if p == "P1" then [c9bind] else [],
    langBindings := fun _ _ => [] }

/-- An otherwise empty container wired to `c9eng`. -/
def c9ex : FRC := mkFRC [] [] [] c9eng

/-- C9 counterexample: population stores an unsigned time-typed principal
value verbatim — without a `+` prefix — in both the reverse value index
and the entity statement cache, so principal values are not sign
normalized; only reference values are. -/
theorem C9_counterexample :
    Except.map (fun c => c.rev_lookup) (_query_data c9ex "P1") =
      Except.ok [("2020-01-01T00:00:00Z", ["Q1"])] ∧
    Except.map (fun c => c.prop_data) (_query_data c9ex "P1") =
      Except.ok
        [("Q1", [("P1", [("S1", ⟨CVal.lit "2020-01-01T00:00:00Z", [], []⟩)])])] ∧
    startsPlus "2020-01-01T00:00:00Z" = false :=
  ⟨rfl, rfl, rfl⟩

/-- C9 (amended): during population only reference values are sign
normalized — every literal reference binding declared as `xsd:dateTime` is
stored with an explicit `+` prefix; principal statement values are stored
exactly as returned by the query. -/
theorem C9_rval_normalized (t : RDFTerm) (h1 : t.typ = "literal")
    (h2 : t.datatype = some xsdDateTime) :
    startsPlus ((fmtRval t).str) = true := by
  have hplus : ∀ v : String, startsPlus ("+" ++ v) = true := by
    intro v
    have hd : ("+" ++ v).data = '+' :: v.data := by
      rw [String.data_append]
      rfl
    simp [startsPlus, hd, chStarts]
  obtain ⟨ty, v, dtt⟩ := t
  simp only at h1 h2
  subst h1
  subst h2
  by_cases hs : startsPlus v = true
  · simp [fmtRval, plusNorm, CVal.str, hs]
  · simp [fmtRval, plusNorm, CVal.str, hs, hplus]

/-- Witness for C9's amended theorem at a concrete unsigned dateTime
reference term. -/
theorem C9_rval_normalized_witness :
    startsPlus ((fmtRval ⟨"literal", "2020-01-01T00:00:00Z",
      some xsdDateTime⟩).str) = true :=
  C9_rval_normalized ⟨"literal", "2020-01-01T00:00:00Z", some xsdDateTime⟩ rfl rfl

/-! ### Claim C10 -/

/-- A container with one resolved property and an empty reverse index. -/
def c10ex : FRC := mkFRC [] [("P1", "string")] [] engNone

/-- A desired statement with a datatype but no value. -/
def c10st : WDStatement := ⟨"P1", none, some "string", [], []⟩

/-- C10 counterexample: a call with `cqid = None` whose desired set has no
statement carrying both a value and a datatype (its only statement has a
datatype but no value) returns the boolean `true` instead of raising. -/
theorem C10_counterexample :
    Except.map Prod.fst (write_required c10ex [c10st] [] none) =
      Except.ok true ∧
    valTruthy c10st.value = false ∧ dtTruthy c10st.data_type = true :=
  ⟨rfl, rfl, rfl⟩

/-- C10 (amended): when `cqid` is `None` and every desired statement is a
deletion marker (empty value and no datatype) — in particular for an empty
desired set — `match_sets` stays empty and the call raises `IndexError`
from `match_sets[0]` instead of returning a boolean. -/
theorem C10_index_error (c : FRC) (data : List WDStatement) (ap : List String)
    (h : ∀ d ∈ data, valTruthy d.value = false ∧ dtTruthy d.data_type = false) :
    write_required c data ap none =
      Except.error "IndexError: list index out of range" := by
  simp only [write_required, phase1_skip_all c false data h, interStage]

/-- Witness for C10's amended theorem: the empty desired set. -/
theorem C10_index_error_witness :
    write_required (mkFRC [] [] [] engNone) [] [] none =
      Except.error "IndexError: list index out of range" :=
  C10_index_error _ [] [] (fun d hd => absurd hd (List.not_mem_nil d))

/-! ### Claim C5 -/

/-- C5: once the candidate-collection loop has produced the per-statement
candidate sets, a call without a known entity id returns `true` whenever
the intersection of those sets does not contain exactly one entity id,
and a call with a (non-empty) known entity id skips the intersection
entirely and proceeds with that id as the matching entity. -/
theorem C5_candidate_resolution (c c1 : FRC) (data : List WDStatement)
    (ap : List String) (m : List String) (ms : List (List String)) (wr : Bool)
    (h1 : phase1 c false data = Except.ok (P1Out.sets (m :: ms) wr, c1)) :
    ((m.filter (fun q => ms.all (fun s => s.contains q))).length ≠ 1 →
      write_required c data ap none = Except.ok (true, c1)) ∧
    (∀ q : String, (q == "") = false →
      write_required c data ap (some q) = matchedStage c1 data ap wr q) := by
  constructor
  · intro hlen
    simp only [write_required, h1, interStage]
    rcases hf : m.filter (fun q => ms.all (fun s => s.contains q))
      with - | ⟨q, - | ⟨q2, qs⟩⟩
    · rfl
    · rw [hf] at hlen
      simp at hlen
    · rfl
  · intro q hq
    simp only [write_required, h1, hq, Bool.false_eq_true, if_false]

/-- A container caching two entities that share the value of `P1`. -/
def c5ex : FRC := mkFRC
  [("Q1", [("P1", [("S1", ⟨CVal.lit "v", [], []⟩)])]),
   ("Q2", [("P1", [("S2", ⟨CVal.lit "v", [], []⟩)])])]
  [("P1", "string")] [("v", ["Q1", "Q2"])] engNone

/-- The shared desired statement for the C5 witness. -/
def c5d : WDStatement := ⟨"P1", some (WDVal.s "v"), some "string", [], []⟩

/-- Witness for C5 at a two-candidate container: without a known entity id
the ambiguous intersection forces `true`; with one the call proceeds to
the matched-entity stage on that id. -/
theorem C5_candidate_resolution_witness :
    write_required c5ex [c5d] [] none = Except.ok (true, c5ex) ∧
    write_required c5ex [c5d] [] (some "Q1") =
      matchedStage c5ex [c5d] [] false "Q1" := by
  have h1 : phase1 c5ex false [c5d] =
      Except.ok (P1Out.sets [["Q1", "Q2"]] false, c5ex) := rfl
  have h := C5_candidate_resolution c5ex c5ex [c5d] [] ["Q1", "Q2"] [] false h1
  exact ⟨h.1 (by decide), h.2 "Q1" rfl⟩

/-! ### Claim C7 -/

/-- C7: whenever the desired set contains an assertive statement whose
resolved datatype is globe-coordinate, any boolean `write_required`
returns is `true`, regardless of the other statements, the append-only
list and any supplied known entity id. -/
theorem C7_coordinate_conservative (c : FRC) (data : List WDStatement)
    (ap : List String) (cq : Option String) (b : Bool) (c' : FRC)
    (hex : ∃ st ∈ data, valTruthy st.value = true ∧ dtTruthy st.data_type = true ∧
      alGet c.prop_dt_map st.prop_nr = some "globe-coordinate")
    (hok : write_required c data ap cq = Except.ok (b, c')) : b = true := by
  simp only [write_required] at hok
  rcases hp : phase1 c false data with e | oc1
  · rw [hp] at hok
    exact Except.noConfusion hok
  · obtain ⟨out, c1⟩ := oc1
    rw [hp] at hok
    rcases phase1_coord data c false out c1 hp hex with hearly | ⟨ms, hsets⟩
    · subst hearly
      simp only [Except.ok.injEq, Prod.mk.injEq] at hok
      exact hok.1.symm
    · subst hsets
      simp only [] at hok
      rcases cq with - | q
      · exact interStage_true _ _ _ _ _ _ hok
      · simp only [] at hok
        by_cases hqe : (q == "") = true
        · rw [if_pos hqe] at hok
          exact interStage_true _ _ _ _ _ _ hok
        · rw [if_neg hqe] at hok
          exact matchedStage_true _ _ _ _ _ _ hok

/-- A container with one coordinate-typed cached statement whose value is
not in the reverse index, so the early `return True` fires. -/
def c7ex : FRC := mkFRC
  [("Q5", [("P625", [("S1", ⟨CVal.lit "12,45", [], []⟩)])])]
  [("P625", "globe-coordinate")] [] engNone

/-- The desired coordinate statement for the C7 witness. -/
def c7d : WDStatement := ⟨"P625", some (WDVal.s "12,45"), some "globe-coordinate", [], []⟩

/-- Witness for C7 at a concrete coordinate-bearing call. -/
theorem C7_coordinate_conservative_witness : true = true :=
  C7_coordinate_conservative c7ex [c7d] [] none true c7ex
    ⟨c7d, by simp, rfl, rfl, rfl⟩ rfl

/-! ### Claim C8 -/

/-- An engine resolving the qualifier property `P9`. -/
def c8eng : Engine :=
  { dt := fun p => if p == "P9" then some "string" else none,
    bindings := fun _ _ => [], langBindings := fun _ _ => [] }

/-- A container caching one statement carrying a qualifier whose property
datatype is not yet resolved. -/
def c8ex : FRC := mkFRC
  [("Q1", [("P1", [("S1", ⟨CVal.lit "v", [("P9", "q")], []⟩)])])]
  [("P1", "string")] [("v", ["Q1"])] c8eng

/-- C8 counterexample: reconstructing that entity inserts the qualifier
property's datatype into the property datatype map — cache state is
mutated, so `reconstruct_statements` is not free of cache mutation. -/
theorem C8_counterexample :
    Except.map (fun r => r.2.prop_dt_map) (reconstruct_statements c8ex "Q1") =
      Except.ok [("P1", "string"), ("P9", "string")] ∧
    c8ex.prop_dt_map = [("P1", "string")] :=
  ⟨rfl, rfl⟩

/-- C8 (amended): `reconstruct_statements` never mutates the entity
statement cache, the reverse value index or the language cache; it may
insert missing qualifier/reference datatypes into the property datatype
map (and it overwrites the `reconstructed_statements` attribute).  When
every datatype it needs is already resolved, the datatype map is unchanged
as well and an immediately repeated call returns the same, structurally
equal, statement list. -/
theorem C8_reconstruct_frame (c : FRC) (qid : String) (rs : List WDStatement)
    (c2 : FRC) (h : reconstruct_statements c qid = Except.ok (rs, c2)) :
    c2.prop_data = c.prop_data ∧ c2.rev_lookup = c.rev_lookup ∧
    c2.loaded_langs = c.loaded_langs ∧
    (∀ entity, alGet c.prop_data qid = some entity →
      (∀ p ∈ entityDtProps entity, alMem c.prop_dt_map p = true) →
      c2.prop_dt_map = c.prop_dt_map ∧
      reconstruct_statements c2 qid = Except.ok (rs, c2)) := by
  simp only [reconstruct_statements] at h
  split at h
  · exact Except.noConfusion h
  · rename_i entity0 hent0
    split at h
    · exact Except.noConfusion h
    · rename_i x1 sts m hrec0
      simp only [Except.ok.injEq, Prod.mk.injEq] at h
      obtain ⟨hrs, hc2⟩ := h
      subst hrs
      subst hc2
      refine ⟨rfl, rfl, rfl, ?_⟩
      intro entity hent hresv
      have hent1 : entity0 = entity :=
        Option.some.inj (hent0.symm.trans hent)
      subst hent1
      have hall := reconAll_resolved c.engine c.prop_dt_map entity0 hresv
      rw [hrec0] at hall
      simp only [Except.ok.injEq, Prod.mk.injEq] at hall
      obtain ⟨hsts, hm⟩ := hall
      subst hsts
      subst hm
      refine ⟨rfl, ?_⟩
      exact reconstruct_resolved _ qid entity0 hent hresv

/-- A container like `c8ex` but with the qualifier datatype already
resolved. -/
def c8res : FRC := mkFRC
  [("Q1", [("P1", [("S1", ⟨CVal.lit "v", [("P9", "q")], []⟩)])])]
  [("P1", "string"), ("P9", "string")] [("v", ["Q1"])] engNone

/-- The statement `c8res` reconstructs. -/
def c8stmt : WDStatement := stmtOf "string" "P1" ⟨CVal.lit "v", [("P9", "q")], []⟩

/-- Witness for C8's amended theorem: on the fully resolved container the
frame holds and the repeated call returns the same result. -/
theorem C8_reconstruct_frame_witness :
    reconstruct_statements
        { c8res with reconstructed_statements := [c8stmt] } "Q1" =
      Except.ok ([c8stmt],
        { c8res with reconstructed_statements := [c8stmt] }) :=
  ((C8_reconstruct_frame c8res "Q1" [c8stmt]
      { c8res with reconstructed_statements := [c8stmt] } rfl).2.2.2
    [("P1", [("S1", ⟨CVal.lit "v", [("P9", "q")], []⟩)])] rfl (by decide)).2

/-! ### Claim C2 -/

/-- A container caching two structurally identical statements (distinct
statement ids) for property `P1` of entity `Q1`. -/
def c2ex : FRC := mkFRC
  [("Q1", [("P1", [("S1", ⟨CVal.lit "foo", [], []⟩),
                   ("S2", ⟨CVal.lit "foo", [], []⟩)])])]
  [("P1", "string")] [("foo", ["Q1"])] engNone

/-- The single desired statement, equal to both cached ones. -/
def c2d : WDStatement := ⟨"P1", some (WDVal.s "foo"), some "string", [], []⟩

/-- The statement list `c2ex` reconstructs for `Q1`. -/
def c2rst : List WDStatement :=
  [stmtOf "string" "P1" ⟨CVal.lit "foo", [], []⟩,
   stmtOf "string" "P1" ⟨CVal.lit "foo", [], []⟩]

/-- The number of desired statements of one append property that found at
least one structurally-equal reconstructed counterpart — the quantity the
claim states the decision in terms of. -/
def desiredWithCounterpart (ur : Bool) (fr : Option RefCmp)
    (app rec : List WDStatement) : Nat :=
  (app.filter (fun x => rec.any (fun y => equalsW ur fr x y))).length

/-- C2 counterexample: with `P1` append-only, every desired statement of
`P1` found a structurally-equal counterpart (the matched count, 1, is not
less than the desired total, 1), yet the call returns true — the code
counts equal (desired, reconstructed) pairs, and the two identical cached
statements produce 2 pairs ≠ 1. -/
theorem C2_counterexample :
    Except.map Prod.fst (write_required c2ex [c2d] ["P1"] (some "Q1")) =
      Except.ok true ∧
    Except.map Prod.fst (reconstruct_statements c2ex "Q1") = Except.ok c2rst ∧
    desiredWithCounterpart false none [c2d] c2rst = 1 ∧
    pairTrues false none [c2d] c2rst = 2 :=
  ⟨rfl, rfl, rfl, rfl⟩

theorem appendCheck_mismatch (ur : Bool) (fr : Option RefCmp)
    (data tmp_rs : List WDStatement) :
    ∀ ap : List String,
      (∃ p ∈ ap, pairTrues ur fr (data.filter (fun x => x.prop_nr == p))
        (tmp_rs.filter (fun x => x.prop_nr == p)) ≠
        (data.filter (fun x => x.prop_nr == p)).length) →
      appendCheck ur fr data tmp_rs ap = true := by
  intro ap
  induction ap with
  | nil =>
    intro h
    obtain ⟨p, hp, -⟩ := h
    exact absurd hp (List.not_mem_nil p)
  | cons q rest ih =>
    intro h
    simp only [appendCheck]
    by_cases hq : (pairTrues ur fr (data.filter (fun x => x.prop_nr == q))
        (tmp_rs.filter (fun x => x.prop_nr == q)) !=
        (data.filter (fun x => x.prop_nr == q)).length) = true
    · rw [if_pos hq]
    · rw [if_neg hq]
      obtain ⟨p, hp, hne⟩ := h
      rw [List.mem_cons] at hp
      rcases hp with rfl | hp
      · exact absurd (bne_iff_ne.mpr hne) hq
      · exact ih ⟨p, hp, hne⟩

/-- C2 (amended): the append-only stage compares, per append property, the
number of structurally-equal (desired, reconstructed) pairs against the
number of desired statements of that property: whenever some append
property's pair count differs from its desired count — which covers every
desired statement without a counterpart, but also a desired statement
equal to several reconstructed duplicates — the call returns true.
Reconstructed statements of the property equal to no desired statement
contribute no pairs, so they never by themselves trigger this stage. -/
theorem C2_append_pairs (c c1 c2 : FRC) (data : List WDStatement)
    (ap : List String) (q : String) (ms : List (List String)) (wr : Bool)
    (rst : List WDStatement)
    (hq : (q == "") = false)
    (h1 : phase1 c false data = Except.ok (P1Out.sets ms wr, c1))
    (h2 : reconstruct_statements { c1 with current_qid := q } q =
      Except.ok (rst, c2))
    (hp : ∃ p ∈ ap, pairTrues c2.use_refs c2.ref_comparison_f
      (data.filter (fun x => x.prop_nr == p))
      (rst.filter (fun x => x.prop_nr == p)) ≠
      (data.filter (fun x => x.prop_nr == p)).length) :
    write_required c data ap (some q) = Except.ok (true, c2) := by
  simp only [write_required, h1, hq, Bool.false_eq_true, if_false, matchedStage,
    h2]
  rw [if_pos (appendCheck_mismatch c2.use_refs c2.ref_comparison_f data rst ap hp)]

/-- The container state after `c2ex` resolves `Q1` and reconstructs it. -/
def c2post : FRC :=
  { c2ex with current_qid := "Q1", reconstructed_statements := c2rst }

/-- Witness for C2's amended theorem at the duplicate-statement container. -/
theorem C2_append_pairs_witness :
    write_required c2ex [c2d] ["P1"] (some "Q1") = Except.ok (true, c2post) :=
  C2_append_pairs c2ex c2ex c2post [c2d] ["P1"] "Q1" [["Q1"]] false c2rst
    rfl rfl rfl ⟨"P1", by simp, by decide⟩

/-! ### Claim C4 -/

/-- An engine that resolves `P1` and, when `P1` is populated, returns a
binding giving entity `Q1` the value `X` for `P1`. -/
def c4eng : Engine :=
  { dt := fun p => if p == "P1" then some "string" else none,
    bindings := fun _ p =>
      if p == "P1" then
        [{ item := some ⟨"uri", "http://www.wikidata.org/entity/Q1", none⟩,
           sid := some ⟨"uri", "S9", none⟩,
           v := some ⟨"literal", "X", none⟩ }]
      else [],
    langBindings := fun _ _ => [] }

/-- A container with `P2` resolved and populated (two identical `Y`
statements of `Q1`), `P1` unresolved, and `X` absent from the reverse
index. -/
def c4ex : FRC := mkFRC
  [("Q1", [("P2", [("S1", ⟨CVal.lit "Y", [], []⟩),
                   ("S2", ⟨CVal.lit "Y", [], []⟩)])])]
  [("P2", "string")] [("Y", ["Q1"])] c4eng

/-- Desired statement for the unresolved property `P1`, value `X`. -/
def c4s1 : WDStatement := ⟨"P1", some (WDVal.s "X"), some "string", [], []⟩

/-- Desired assertive statement whose value `X` is absent from the index. -/
def c4s2 : WDStatement := ⟨"P2", some (WDVal.s "X"), some "string", [], []⟩

/-- Desired statement matching both cached `Y` statements. -/
def c4s3 : WDStatement := ⟨"P2", some (WDVal.s "Y"), some "string", [], []⟩

/-- C4 counterexample: the desired set contains the assertive statement
`c4s2` whose property `P2` is resolved and populated and whose normalized
value `X` is absent from the reverse value index when the call is made,
yet the call returns false: processing the earlier statement `c4s1`
populates `P1` mid-call, which indexes the value `X`, and `P2` being
append-only lets the duplicate pair count satisfy the append stage. -/
theorem C4_counterexample :
    Except.map Prod.fst
      (write_required c4ex [c4s1, c4s2, c4s3] ["P2"] (some "Q1")) =
      Except.ok false ∧
    alMem c4ex.rev_lookup (normalizeCur "string" (WDVal.s "X")) = false ∧
    alGet c4ex.prop_dt_map "P2" = some "string" ∧
    alMem ((alGet c4ex.prop_data "Q1").getD []) "P2" = true ∧
    valTruthy c4s2.value = true ∧ dtTruthy c4s2.data_type = true :=
  ⟨rfl, rfl, rfl, rfl, rfl, rfl⟩

/-- C4 (amended): a desired assertive statement whose normalized value is
absent from the reverse value index at the moment it is examined forces
`write required = true`; in particular, whenever every non-deletion
desired property is already resolved — so the call performs no population
of its own and the index cannot change mid-call — a value absent at call
time makes the call return true with the container unchanged, regardless
of the other desired statements, of append_props and of any supplied
known entity id. -/
theorem C4_never_seen (c : FRC) (data : List WDStatement) (ap : List String)
    (cq : Option String)
    (hres : ∀ st ∈ data, (valTruthy st.value || dtTruthy st.data_type) = true →
      alMem c.prop_dt_map st.prop_nr = true)
    (hex : ∃ st ∈ data, valTruthy st.value = true ∧ dtTruthy st.data_type = true ∧
      ∀ dt, alGet c.prop_dt_map st.prop_nr = some dt →
        ∀ cv, st.value.map (normalizeCur dt) = some cv →
          alMem c.rev_lookup cv = false) :
    write_required c data ap cq = Except.ok (true, c) := by
  simp only [write_required, phase1_early c data false hres hex]

/-- The desired statement for the C4 witness. -/
def c4wd : WDStatement := ⟨"P1", some (WDVal.s "X"), some "string", [], []⟩

/-- Witness for C4's amended theorem: a resolved property whose value was
never indexed. -/
theorem C4_never_seen_witness :
    write_required c10ex [c4wd] [] none = Except.ok (true, c10ex) :=
  C4_never_seen c10ex [c4wd] [] none (by decide)
    ⟨c4wd, by simp, rfl, rfl, fun dt hdt cv hcv => by
      have h1 : "string" = dt := Option.some.inj hdt
      subst h1
      have h2 : "X" = cv := Option.some.inj hcv
      subst h2
      rfl⟩

/-! ### Claim C1 -/

/-- A container caching a single globe-coordinate statement of `Q5`. -/
def c1co : FRC := mkFRC
  [("Q5", [("P625", [("S1", ⟨CVal.lit "12,45", [], []⟩)])])]
  [("P625", "globe-coordinate")] [("12,45", ["Q5"])] engNone

/-- The statement `c1co` reconstructs for `Q5`. -/
def c1cors : List WDStatement :=
  [stmtOf "globe-coordinate" "P625" ⟨CVal.lit "12,45", [], []⟩]

/-- C1 counterexample: for an entity whose cached statement has
globe-coordinate datatype, feeding the reconstruction back unchanged
returns true — the coordinate special case unconditionally forces a write
— so the round trip is not false for every cached entity, with or without
the entity id supplied. -/
theorem C1_counterexample :
    Except.map Prod.fst (reconstruct_statements c1co "Q5") = Except.ok c1cors ∧
    Except.map Prod.fst (write_required c1co c1cors [] (some "Q5")) =
      Except.ok true ∧
    Except.map Prod.fst (write_required c1co c1cors [] none) = Except.ok true :=
  ⟨rfl, rfl, rfl⟩

/-- C1 (amended): over a well-formed, fully resolved cache — every cached
value of the entity indexed in the reverse value index, every involved
property datatype resolved, no globe-coordinate datatype among them,
wikibase-item values canonical — and a reference comparison policy that is
an equivalence, reconstructing an entity's statements and feeding them
back unchanged as the desired set, with the entity's id supplied as the
known entity id, yields `write required = false`. -/
theorem C1_roundtrip_idempotent (c : FRC) (qid : String)
    (entity : List (String × List (String × SRec)))
    (rs : List WDStatement) (c2 : FRC)
    (hq : (qid == "") = false)
    (hent : alGet c.prop_data qid = some entity)
    (hres : ∀ p ∈ entityDtProps entity, alMem c.prop_dt_map p = true)
    (hwf : ∀ g ∈ entity, ∀ sd ∈ g.2,
      entryOK ((alGet c.prop_dt_map g.1).getD "") sd.2.v = true)
    (hrev : ∀ g ∈ entity, ∀ sd ∈ g.2, alMem c.rev_lookup sd.2.v.str = true)
    (hrefl : ∀ r, effRefCmp c.use_refs c.ref_comparison_f r r = true)
    (hsymm : ∀ r1 r2, effRefCmp c.use_refs c.ref_comparison_f r1 r2 = true →
      effRefCmp c.use_refs c.ref_comparison_f r2 r1 = true)
    (htrans : ∀ r1 r2 r3,
      effRefCmp c.use_refs c.ref_comparison_f r1 r2 = true →
      effRefCmp c.use_refs c.ref_comparison_f r2 r3 = true →
      effRefCmp c.use_refs c.ref_comparison_f r1 r3 = true)
    (hrec : reconstruct_statements c qid = Except.ok (rs, c2)) :
    ∃ c3, write_required c rs [] (some qid) = Except.ok (false, c3) := by
  have hres0 := reconstruct_resolved c qid entity hent hres
  rw [hrec] at hres0
  simp only [Except.ok.injEq, Prod.mk.injEq] at hres0
  obtain ⟨hrs, -⟩ := hres0
  have hfull : (reconListOf c.prop_dt_map entity).filter
      (fun st => ((reconListOf c.prop_dt_map entity).map (·.prop_nr)).contains
        st.prop_nr) = reconListOf c.prop_dt_map entity := by
    refine List.filter_eq_self.mpr (fun st hst => ?_)
    exact List.elem_iff.mpr (List.mem_map.mpr ⟨st, hst, rfl⟩)
  have hsub := subset_roundtrip_false c qid entity
    ((reconListOf c.prop_dt_map entity).map (·.prop_nr)) hq hent hres hwf hrev
    hrefl hsymm htrans
  rw [hfull] at hsub
  rw [hrs]
  exact ⟨_, hsub⟩

/-- A container caching one entity `Q7` with a canonical item value, a
time value, a qualifier and a reference, all datatypes resolved and all
values indexed. -/
def c1ex : FRC := mkFRC
  [("Q7", [("P10", [("SA", ⟨CVal.lit "Q42", [("P9", "x")],
      [("R1", [("P8", CVal.lit "+2020-01-01T00:00:00Z")])]⟩)]),
           ("P11", [("SB", ⟨CVal.lit "+2020-01-01T00:00:00Z", [], []⟩)])])]
  [("P10", "wikibase-item"), ("P11", "time"), ("P9", "string"), ("P8", "time")]
  [("Q42", ["Q7"]), ("+2020-01-01T00:00:00Z", ["Q7"])] engNone

/-- The cached entity record of `Q7`. -/
def c1entity : List (String × List (String × SRec)) :=
  [("P10", [("SA", ⟨CVal.lit "Q42", [("P9", "x")],
      [("R1", [("P8", CVal.lit "+2020-01-01T00:00:00Z")])]⟩)]),
   ("P11", [("SB", ⟨CVal.lit "+2020-01-01T00:00:00Z", [], []⟩)])]

/-- The statements `c1ex` reconstructs for `Q7`. -/
def c1rs : List WDStatement := reconListOf c1ex.prop_dt_map c1entity

/-- Witness for C1's amended theorem on the concrete entity `Q7`. -/
theorem C1_roundtrip_idempotent_witness :
    ∃ c3, write_required c1ex c1rs [] (some "Q7") = Except.ok (false, c3) :=
  C1_roundtrip_idempotent c1ex "Q7" c1entity c1rs
    { c1ex with reconstructed_statements := c1rs }
    rfl rfl (by decide) (by decide) (by decide)
    (fun _ => rfl) (fun _ _ _ => rfl) (fun _ _ _ _ _ => rfl) rfl

/-! ### Claim C6 -/

/-- C6 (amended): under the same well-formedness as C1 — fully resolved
well-formed cache, no globe-coordinate datatype, equivalence reference
comparison — and with the entity's id supplied as the known entity id,
feeding back any per-property restriction of the entity's reconstructed
statements, unchanged, yields `write required = false`: cached statements
of properties absent from the desired set are dropped from the working
copy and never force a write. -/
theorem C6_subset_noop (c : FRC) (qid : String)
    (entity : List (String × List (String × SRec)))
    (rs : List WDStatement) (c2 : FRC) (S : List String)
    (hq : (qid == "") = false)
    (hent : alGet c.prop_data qid = some entity)
    (hres : ∀ p ∈ entityDtProps entity, alMem c.prop_dt_map p = true)
    (hwf : ∀ g ∈ entity, ∀ sd ∈ g.2,
      entryOK ((alGet c.prop_dt_map g.1).getD "") sd.2.v = true)
    (hrev : ∀ g ∈ entity, ∀ sd ∈ g.2, alMem c.rev_lookup sd.2.v.str = true)
    (hrefl : ∀ r, effRefCmp c.use_refs c.ref_comparison_f r r = true)
    (hsymm : ∀ r1 r2, effRefCmp c.use_refs c.ref_comparison_f r1 r2 = true →
      effRefCmp c.use_refs c.ref_comparison_f r2 r1 = true)
    (htrans : ∀ r1 r2 r3,
      effRefCmp c.use_refs c.ref_comparison_f r1 r2 = true →
      effRefCmp c.use_refs c.ref_comparison_f r2 r3 = true →
      effRefCmp c.use_refs c.ref_comparison_f r1 r3 = true)
    (hrec : reconstruct_statements c qid = Except.ok (rs, c2)) :
    ∃ c3, write_required c (rs.filter (fun st => S.contains st.prop_nr)) []
      (some qid) = Except.ok (false, c3) := by
  have hres0 := reconstruct_resolved c qid entity hent hres
  rw [hrec] at hres0
  simp only [Except.ok.injEq, Prod.mk.injEq] at hres0
  obtain ⟨hrs, -⟩ := hres0
  have hsub := subset_roundtrip_false c qid entity S hq hent hres hwf hrev
    hrefl hsymm htrans
  rw [hrs]
  exact ⟨_, hsub⟩

/-- A container caching two entities that share all `P1` values, plus a
second property on `Q1`. -/
def c6ex : FRC := mkFRC
  [("Q1", [("P1", [("S1", ⟨CVal.lit "a", [], []⟩)]),
           ("P2", [("S2", ⟨CVal.lit "b", [], []⟩)])]),
   ("Q2", [("P1", [("S3", ⟨CVal.lit "a", [], []⟩)]),
           ("P2", [("S4", ⟨CVal.lit "b", [], []⟩)])])]
  [("P1", "string"), ("P2", "string")]
  [("a", ["Q1", "Q2"]), ("b", ["Q1", "Q2"])] engNone

/-- A desired statement that is exactly `Q1`'s cached `P1` statement. -/
def c6d : WDStatement := stmtOf "string" "P1" ⟨CVal.lit "a", [], []⟩

/-- C6 counterexample: the desired set `[c6d]` is exactly the restriction
of `Q1`'s cached statements to property `P1` (a strict subset of its
properties), unchanged, yet without a known entity id the call returns
true — `Q2` holds the same values, the candidate intersection is
ambiguous. -/
theorem C6_counterexample :
    Except.map Prod.fst (write_required c6ex [c6d] [] none) = Except.ok true ∧
    Except.map Prod.fst (reconstruct_statements c6ex "Q1") =
      Except.ok [c6d, stmtOf "string" "P2" ⟨CVal.lit "b", [], []⟩] :=
  ⟨rfl, rfl⟩

/-- Witness for C6's amended theorem: feeding back only `Q7`'s `P10`
statement (a strict subset of its two properties) with `cqid = Q7`. -/
theorem C6_subset_noop_witness :
    ∃ c3, write_required c1ex
      (c1rs.filter (fun st => (["P10"] : List String).contains st.prop_nr)) []
      (some "Q7") = Except.ok (false, c3) :=
  C6_subset_noop c1ex "Q7" c1entity c1rs
    { c1ex with reconstructed_statements := c1rs } ["P10"]
    rfl rfl (by decide) (by decide) (by decide)
    (fun _ => rfl) (fun _ _ _ => rfl) (fun _ _ _ _ _ => rfl) rfl

end FastRun
